import Mathlib

/-!
Verification of the track parser and aggregator of `src/services/tcxParser.ts`.

The TypeScript source is embedded shallowly:

* Per-sample extraction (DOM queries plus `parseFloat` / `parseInt` /
  `Date.getTime`) is abstracted away: a `Trackpoint` carries the numeric
  values the source computes into its per-sample local variables
  `timestamp`, `dist`, `hr` and `cad`.  `alt` stays an `Option` because the
  presence of an `AltitudeMeters` node separately gates the elevation
  accumulator (absence leaves `lastAltitude` untouched while the chart
  series still records an altitude of 0).
* JavaScript numbers are modelled as exact rationals `ℚ` (integers as `ℤ`),
  `Math.round` as `jsRound`, `Math.floor` as `Int.floor`, and the `%`
  operator on numbers as `jsRem` (remainder truncated towards zero).
* The mutable single forward pass becomes a fold (`passGo`) over the sample
  list threading the record `PassState` of all accumulator variables.
* The best-effort sliding window becomes `beGo`/`shrinkGo`; an out-of-bounds
  array read (`rawPoints[left + 1]` past the end, a TypeError at runtime)
  is modelled by the `Option` layer returning `none`, and `Infinity` as the
  initial best time by `Option ℚ` with `none` for `Infinity`.
* `parseTcxFileContent` returns `Except ParseError`, with `ParseError.noData`
  for the thrown "No trackpoints found in TCX file." error.
-/

/-- JavaScript `Math.round`: `⌊x + 1/2⌋` (half-up, also for negative x). -/
def jsRound (q : ℚ) : ℤ := ⌊q + 1/2⌋

/-- Truncation of a rational towards zero (used by the JS `%` operator). -/
def ratTrunc (q : ℚ) : ℤ := if 0 ≤ q then ⌊q⌋ else -⌊-q⌋

/-- JavaScript `%` on numbers: remainder with truncation towards zero. -/
def jsRem (a b : ℚ) : ℚ := a - b * (ratTrunc (a / b) : ℚ)

/-- JavaScript `String.prototype.padStart(2, "0")`. -/
def padStart2 (s : String) : String := if s.length < 2 then "0" ++ s else s

/-- The apostrophe character, as a string (avoids quoting issues). -/
def apos : String := String.singleton (Char.ofNat 39)

/-- The double-quote character, as a string (avoids quoting issues). -/
def quotMark : String := String.singleton (Char.ofNat 34)

/-- Embeds `formatDuration` of `src/services/tcxParser.ts`. -/
def formatDuration (seconds : ℚ) : String :=
  let h : ℤ := ⌊seconds / 3600⌋
  let m : ℤ := ⌊jsRem seconds 3600 / 60⌋
  let s : ℤ := ⌊jsRem seconds 60⌋
  if 0 < h then
    toString h ++ ":" ++ padStart2 (toString m) ++ ":" ++ padStart2 (toString s)
  else
    toString m ++ ":" ++ padStart2 (toString s)

/-- Embeds `formatPace` of `src/services/tcxParser.ts`. -/
def formatPace (secondsPerKm : ℚ) : String :=
  let m : ℤ := ⌊secondsPerKm / 60⌋
  let s : ℤ := ⌊jsRem secondsPerKm 60⌋
  toString m ++ apos ++ padStart2 (toString s) ++ quotMark ++ "/km"

/-! ## Data model -/

/-- One sample of the recording, carrying the values the source extracts
into its per-sample locals: `timestamp` (milliseconds, 0 when the `Time`
node is absent), `dist` (cumulative meters, 0 when absent), `hr`
(beats/min, 0 when absent) and `cad` (steps/min, 0 when absent).  `alt` is
optional because node presence separately gates the elevation logic. -/
structure Trackpoint where
  time : ℚ
  dist : ℚ
  hr : ℤ
  cad : ℤ
  alt : Option ℚ
  deriving DecidableEq

instance : Inhabited Trackpoint := ⟨⟨0, 0, 0, 0, none⟩⟩

/-- Input document: the `Trackpoint` samples plus the optional header
`Calories` value. -/
structure TcxDoc where
  trackpoints : List Trackpoint
  totalCalories : Option ℤ
  deriving DecidableEq

/-- Mirror of the `TcxSplit` record populated by the parser. -/
structure TcxSplit where
  kilometer : ℕ
  timeSeconds : ℚ
  avgHr : ℤ
  avgPaceSeconds : ℚ
  avgCadence : ℤ
  deriving DecidableEq

/-- Mirror of the `DataPoint` record pushed into the chart series. -/
structure DataPoint where
  dist : ℚ
  ele : ℚ
  hr : ℤ
  pace : ℚ
  cadence : ℤ
  deriving DecidableEq

/-- Mirror of the `BestEffort` record. -/
structure BestEffort where
  distanceLabel : String
  timeSeconds : ℚ
  paceSeconds : ℚ
  deriving DecidableEq

/-- Raw point retained for the best-effort pass (`rawPoints` in source). -/
structure RawPoint where
  time : ℚ
  dist : ℚ
  deriving DecidableEq

instance : Inhabited RawPoint := ⟨⟨0, 0⟩⟩

/-- Mirror of the `ParsedActivityData` result record. -/
structure ParsedActivityData where
  totalDistanceMeters : ℚ
  totalDurationSeconds : ℚ
  avgHr : ℤ
  maxHr : ℤ
  avgCadence : Option ℤ
  elevationGain : ℚ
  avgPaceSecondsPerKm : ℚ
  trainingLoadScore : ℤ
  totalCalories : Option ℤ
  splits : List TcxSplit
  bestEfforts : List BestEffort
  seriesSample : List DataPoint
  deriving DecidableEq

/-- Error raised by the parser: `noData` models the thrown
"No trackpoints found in TCX file." and `runtimeCrash` an out-of-bounds
array read in the best-effort pass (proved unreachable below). -/
inductive ParseError where
  | noData
  | runtimeCrash
  deriving DecidableEq

/-! ## The single forward pass -/

/-- Accumulator state of the forward pass: exactly the mutable locals of
`parseTcxFileContent` that the per-sample loop reads or writes. -/
structure PassState where
  totalDistance : ℚ
  startTime : ℚ
  endTime : ℚ
  heartRateSum : ℤ
  heartRateCount : ℕ
  maxHr : ℤ
  cadenceSum : ℤ
  cadenceCount : ℕ
  elevationGain : ℚ
  lastAltitude : ℚ
  splits : List TcxSplit
  currentSplitStartTime : ℚ
  currentSplitHrSum : ℤ
  currentSplitHrCount : ℕ
  currentSplitCadenceSum : ℤ
  currentSplitCadenceCount : ℕ
  lastSplitDistance : ℚ
  splitIndex : ℕ
  seriesSample : List DataPoint
  rawPoints : List RawPoint

/-- Initial values of the pass accumulators (`lastAltitude = -9999` is the
sentinel the source uses for "unset"). -/
def initState : PassState :=
  { totalDistance := 0, startTime := 0, endTime := 0
    heartRateSum := 0, heartRateCount := 0, maxHr := 0
    cadenceSum := 0, cadenceCount := 0
    elevationGain := 0, lastAltitude := -9999
    splits := [], currentSplitStartTime := 0
    currentSplitHrSum := 0, currentSplitHrCount := 0
    currentSplitCadenceSum := 0, currentSplitCadenceCount := 0
    lastSplitDistance := 0, splitIndex := 1
    seriesSample := [], rawPoints := [] }

/-- Altitude value used for the chart series: parsed value, or 0 when the
node is absent (the local `alt` of the source starts at 0). -/
def altVal (p : Trackpoint) : ℚ := (p.alt).getD 0

/-- One iteration of the `trackpoints.forEach` body.  `n` is the total
sample count and `rate` the chart stride; `index` is the sample index. -/
def passStep (n rate : ℕ) (index : ℕ) (s : PassState) (p : Trackpoint) : PassState :=
  -- 1. time
  let startTime := if index = 0 then p.time else s.startTime
  let currentSplitStartTime := if index = 0 then p.time else s.currentSplitStartTime
  let endTime := p.time
  -- 2. distance (running maximum)
  let totalDistance := if s.totalDistance < p.dist then p.dist else s.totalDistance
  -- 3. heart rate
  let heartRateSum := if 0 < p.hr then s.heartRateSum + p.hr else s.heartRateSum
  let heartRateCount := if 0 < p.hr then s.heartRateCount + 1 else s.heartRateCount
  let maxHr := if 0 < p.hr ∧ s.maxHr < p.hr then p.hr else s.maxHr
  let splitHrSum := if 0 < p.hr then s.currentSplitHrSum + p.hr else s.currentSplitHrSum
  let splitHrCount := if 0 < p.hr then s.currentSplitHrCount + 1 else s.currentSplitHrCount
  -- 4. cadence
  let cadenceSum := if 0 < p.cad then s.cadenceSum + p.cad else s.cadenceSum
  let cadenceCount := if 0 < p.cad then s.cadenceCount + 1 else s.cadenceCount
  let splitCadSum :=
    if 0 < p.cad then s.currentSplitCadenceSum + p.cad else s.currentSplitCadenceSum
  let splitCadCount :=
    if 0 < p.cad then s.currentSplitCadenceCount + 1 else s.currentSplitCadenceCount
  -- 5. elevation
  let elevationGain :=
    match p.alt with
    | none => s.elevationGain
    | some a =>
        if s.lastAltitude ≠ -9999 ∧ s.lastAltitude < a ∧ (0.2 : ℚ) < a - s.lastAltitude then
          s.elevationGain + (a - s.lastAltitude)
        else s.elevationGain
  let lastAltitude :=
    match p.alt with
    | none => s.lastAltitude
    | some a => a
  -- store raw point for best efforts
  let rawPoints := s.rawPoints ++ [⟨p.time, p.dist⟩]
  -- 6. chart sampling
  let seriesSample :=
    if index % rate = 0 ∨ index = n - 1 then
      s.seriesSample ++ [⟨p.dist, altVal p, p.hr, 0, p.cad⟩]
    else s.seriesSample
  -- 7. split logic (uses the updated running distance)
  if (s.splitIndex : ℚ) * 1000 ≤ totalDistance then
    let splitDuration := (p.time - currentSplitStartTime) / 1000
    let splitAvgHr : ℤ := if 0 < splitHrCount then jsRound ((splitHrSum : ℚ) / (splitHrCount : ℚ)) else 0
    let splitAvgCadence : ℤ :=
      if 0 < splitCadCount then jsRound ((splitCadSum : ℚ) / (splitCadCount : ℚ)) else 0
    let splitDist := totalDistance - s.lastSplitDistance
    let splitPace := splitDuration / (splitDist / 1000)
    { totalDistance, startTime, endTime, heartRateSum, heartRateCount, maxHr
      cadenceSum, cadenceCount, elevationGain, lastAltitude
      splits := s.splits ++
        [⟨s.splitIndex, splitDuration, splitAvgHr, splitPace, splitAvgCadence⟩]
      currentSplitStartTime := p.time
      currentSplitHrSum := 0, currentSplitHrCount := 0
      currentSplitCadenceSum := 0, currentSplitCadenceCount := 0
      lastSplitDistance := totalDistance
      splitIndex := s.splitIndex + 1
      seriesSample, rawPoints }
  else
    { totalDistance, startTime, endTime, heartRateSum, heartRateCount, maxHr
      cadenceSum, cadenceCount, elevationGain, lastAltitude
      splits := s.splits
      currentSplitStartTime
      currentSplitHrSum := splitHrSum, currentSplitHrCount := splitHrCount
      currentSplitCadenceSum := splitCadSum, currentSplitCadenceCount := splitCadCount
      lastSplitDistance := s.lastSplitDistance
      splitIndex := s.splitIndex
      seriesSample, rawPoints }

/-- The forward pass: fold `passStep` over the samples, threading the
sample index. -/
def passGo (n rate : ℕ) : ℕ → PassState → List Trackpoint → PassState
  | _, s, [] => s
  | index, s, p :: ps => passGo n rate (index + 1) (passStep n rate index s p) ps

/-- Chart stride: `Math.max(1, Math.floor(trackpoints.length / 150))`. -/
def sampleRate (n : ℕ) : ℕ := max 1 (n / 150)

/-- Run the full forward pass over the samples of a document. -/
def passRun (pts : List Trackpoint) : PassState :=
  passGo pts.length (sampleRate pts.length) 0 initState pts

/-! ## The best-effort sliding window

The `left` pointer is represented by the point it designates (`pl`) plus
the list suffix strictly after it (`lrest`); the `right` pointer by the
suffix of points still to visit.  Reading `rawPoints[left + 1]` when
`left + 1` is past the end of the array — a TypeError in the source — is
the `none` result of `shrinkGo`. -/

/-- The `while (rawPoints[right].dist - rawPoints[left + 1].dist >= targetDist) left++`
loop. `rd` is `rawPoints[right].dist`. -/
def shrinkGo (target rd : ℚ) : RawPoint → List RawPoint → Option (RawPoint × List RawPoint)
  | _, [] => none
  | pl, q :: rest =>
      if target ≤ rd - q.dist then shrinkGo target rd q rest else some (pl, q :: rest)

/-- JavaScript `if (t < bestTime) bestTime = t` with `Infinity` as `none`. -/
def updateBest (best : Option ℚ) (t : ℚ) : Option ℚ :=
  match best with
  | none => some t
  | some b => if t < b then some t else some b

/-- The `for (let right = 0; ...)` loop of the best-effort pass. -/
def beGo (target : ℚ) : List RawPoint → RawPoint → List RawPoint → Option ℚ → Option (Option ℚ)
  | [], _, _, best => some best
  | pr :: rs, pl, lrest, best =>
      if target ≤ pr.dist - pl.dist then
        match shrinkGo target pr.dist pl lrest with
        | none => none
        | some (pl2, lrest2) =>
            beGo target rs pl2 lrest2 (updateBest best ((pr.time - pl2.time) / 1000))
      else beGo target rs pl lrest best

/-- One target distance of the best-effort pass: `bestTime`, or `none` for
`Infinity`; the outer `none` signals the (unreachable) out-of-bounds read. -/
def bestEffortRun (raw : List RawPoint) (target : ℚ) : Option (Option ℚ) :=
  match raw with
  | [] => some none
  | p0 :: rest => beGo target (p0 :: rest) p0 rest none

/-- Label attached to a best-effort entry
(`targetDist === 1000 ? "1k" : targetDist === 5000 ? "5k" : "10k"`). -/
def effortLabel (target : ℚ) : String :=
  if target = 1000 then "1k" else if target = 5000 then "5k" else "10k"

/-- Best-effort entries contributed by one target distance: skipped when the
total distance has not reached the target, or when no window qualified. -/
def effortFor (raw : List RawPoint) (totalDistance target : ℚ) :
    Option (List BestEffort) :=
  if target ≤ totalDistance then
    match bestEffortRun raw target with
    | none => none
    | some none => some []
    | some (some bt) => some [⟨effortLabel target, bt, bt / (target / 1000)⟩]
  else some []

/-- The `targets.forEach` loop over 1000, 5000 and 10000 meters. -/
def mkBestEfforts (raw : List RawPoint) (totalDistance : ℚ) :
    Option (List BestEffort) := do
  let a ← effortFor raw totalDistance 1000
  let b ← effortFor raw totalDistance 5000
  let c ← effortFor raw totalDistance 10000
  pure (a ++ b ++ c)

/-! ## The parser -/

/-- Embeds `parseTcxFileContent` of `src/services/tcxParser.ts`. -/
def parseTcxFileContent (doc : TcxDoc) : Except ParseError ParsedActivityData :=
  if doc.trackpoints.isEmpty then .error .noData
  else
    let s := passRun doc.trackpoints
    let totalDurationSeconds := (s.endTime - s.startTime) / 1000
    let avgHr : ℤ :=
      if 0 < s.heartRateCount then jsRound ((s.heartRateSum : ℚ) / (s.heartRateCount : ℚ)) else 0
    let avgCadence : Option ℤ :=
      if 0 < s.cadenceCount then some (jsRound ((s.cadenceSum : ℚ) / (s.cadenceCount : ℚ)))
      else none
    let avgPaceSecondsPerKm :=
      if 0 < s.totalDistance then totalDurationSeconds / (s.totalDistance / 1000) else 0
    let safeMaxHr : ℤ := if 0 < s.maxHr then s.maxHr else 190
    let trainingLoadScore : ℤ :=
      jsRound ((totalDurationSeconds / 60) * ((avgHr : ℚ) / (safeMaxHr : ℚ)) * 10)
    match mkBestEfforts s.rawPoints s.totalDistance with
    | none => .error .runtimeCrash
    | some bestEfforts =>
        .ok { totalDistanceMeters := s.totalDistance
              totalDurationSeconds, avgHr, maxHr := s.maxHr, avgCadence
              elevationGain := s.elevationGain, avgPaceSecondsPerKm
              trainingLoadScore, totalCalories := doc.totalCalories
              splits := s.splits, bestEfforts, seriesSample := s.seriesSample }

/-! ## Auxiliary definitions used to state the claims -/

/-- The raw `(time, dist)` points the pass retains, one per sample. -/
def rawOf (pts : List Trackpoint) : List RawPoint := pts.map fun p => ⟨p.time, p.dist⟩

/-- Cumulative distance of sample `i` (0 past the end). -/
def rpDist (raw : List RawPoint) (i : ℕ) : ℚ := (raw.getD i default).dist

/-- Timestamp of sample `i` (0 past the end). -/
def rpTime (raw : List RawPoint) (i : ℕ) : ℚ := (raw.getD i default).time

/-- Elapsed seconds of the window from sample `i` to sample `j`. -/
def elapsedQ (raw : List RawPoint) (i j : ℕ) : ℚ := (rpTime raw j - rpTime raw i) / 1000

/-- All index pairs `(i, j)` with `i ≤ j < n`: the contiguous sample windows. -/
def windowPairs (n : ℕ) : List (ℕ × ℕ) :=
  (List.range n).flatMap fun j => (List.range (j + 1)).map fun i => (i, j)

/-- Minimum of a list of rationals, `none` when empty (a fold of the same
update the source applies to `bestTime`). -/
def listMin (xs : List ℚ) : Option ℚ := xs.foldl updateBest none

/-- Spec-side definition, following the specification text: the elapsed
times of all contiguous sample windows whose distance span is at least `d`. -/
def specWindowTimes (raw : List RawPoint) (d : ℚ) : List ℚ :=
  ((windowPairs raw.length).filter fun w => d ≤ rpDist raw w.2 - rpDist raw w.1).map
    fun w => elapsedQ raw w.1 w.2

/-- Spec-side definition: the minimum elapsed time over all contiguous
sample windows whose distance span is at least `d`. -/
def specBestTime (raw : List RawPoint) (d : ℚ) : Option ℚ := listMin (specWindowTimes raw d)

/-- Spec-side definition: the maximum cumulative-distance value seen across
the samples (`none` for an empty recording). -/
def specMaxSeenDist (pts : List Trackpoint) : Option ℚ :=
  (pts.map fun p => p.dist).foldl (fun acc x => some (max ((acc).getD x) x)) none

/-- Code-side running maximum of the cumulative-distance field, as folded by
the forward pass. -/
def distTotal (pts : List Trackpoint) : ℚ :=
  pts.foldl (fun a p => if a < p.dist then p.dist else a) 0

/-- Running total distance after the first `k` samples of the forward pass. -/
def runningDistance (pts : List Trackpoint) (k : ℕ) : ℚ :=
  (passGo pts.length (sampleRate pts.length) 0 initState (pts.take k)).totalDistance

/-- Heart-rate values strictly greater than 0, in sample order (the ones the
accumulators fold). -/
def posHrs (pts : List Trackpoint) : List ℤ :=
  pts.filterMap fun p => if 0 < p.hr then some p.hr else none

/-- Altitude profile of a recording: the parsed altitude values of the
altitude-bearing samples, in order. -/
def altitudeProfile (pts : List Trackpoint) : List ℚ :=
  pts.filterMap fun p => p.alt

/-- Elevation contributed by one consecutive pair of altitude values:
the increase when it exceeds the 0.2 m noise threshold (and the previous
value is not the -9999 "unset" sentinel), otherwise 0. -/
def altContrib (prev cur : ℚ) : ℚ :=
  if prev ≠ -9999 ∧ prev < cur ∧ (0.2 : ℚ) < cur - prev then cur - prev else 0

/-- Sum of `altContrib` over consecutive pairs, threading the previous
value. -/
def chainGain : ℚ → List ℚ → ℚ
  | _, [] => 0
  | prev, a :: t => altContrib prev a + chainGain a t

/-- Sum of `altContrib` over the consecutive pairs of a list. -/
def pairGain : List ℚ → ℚ
  | [] => 0
  | [_] => 0
  | a :: b :: t => altContrib a b + pairGain (b :: t)

/-- Chart `DataPoint` built from one sample. -/
def dataPointOf (p : Trackpoint) : DataPoint := ⟨p.dist, altVal p, p.hr, 0, p.cad⟩

/-- Running maxima of the cumulative-distance field, starting from `a`
(one entry per processed sample, preceded by `a` itself). -/
def runningMaxes (a : ℚ) (pts : List Trackpoint) : List ℚ :=
  pts.scanl (fun acc p => if acc < p.dist then p.dist else acc) a

/-! ## Per-field behaviour of one pass step -/

theorem passStep_totalDistance (n rate idx : ℕ) (s : PassState) (p : Trackpoint) :
    (passStep n rate idx s p).totalDistance =
      (if s.totalDistance < p.dist then p.dist else s.totalDistance) := by
  by_cases h : ((s.splitIndex : ℚ) * 1000 ≤ if s.totalDistance < p.dist then p.dist else s.totalDistance)
  · simp only [passStep, if_pos h]
  · simp only [passStep, if_neg h]

theorem passStep_rawPoints (n rate idx : ℕ) (s : PassState) (p : Trackpoint) :
    (passStep n rate idx s p).rawPoints = s.rawPoints ++ [⟨p.time, p.dist⟩] := by
  by_cases h : ((s.splitIndex : ℚ) * 1000 ≤ if s.totalDistance < p.dist then p.dist else s.totalDistance)
  · simp only [passStep, if_pos h]
  · simp only [passStep, if_neg h]

theorem passStep_endTime (n rate idx : ℕ) (s : PassState) (p : Trackpoint) :
    (passStep n rate idx s p).endTime = p.time := by
  by_cases h : ((s.splitIndex : ℚ) * 1000 ≤ if s.totalDistance < p.dist then p.dist else s.totalDistance)
  · simp only [passStep, if_pos h]
  · simp only [passStep, if_neg h]

theorem passStep_heartRateSum (n rate idx : ℕ) (s : PassState) (p : Trackpoint) :
    (passStep n rate idx s p).heartRateSum =
      (if 0 < p.hr then s.heartRateSum + p.hr else s.heartRateSum) := by
  by_cases h : ((s.splitIndex : ℚ) * 1000 ≤ if s.totalDistance < p.dist then p.dist else s.totalDistance)
  · simp only [passStep, if_pos h]
  · simp only [passStep, if_neg h]

theorem passStep_heartRateCount (n rate idx : ℕ) (s : PassState) (p : Trackpoint) :
    (passStep n rate idx s p).heartRateCount =
      (if 0 < p.hr then s.heartRateCount + 1 else s.heartRateCount) := by
  by_cases h : ((s.splitIndex : ℚ) * 1000 ≤ if s.totalDistance < p.dist then p.dist else s.totalDistance)
  · simp only [passStep, if_pos h]
  · simp only [passStep, if_neg h]

theorem passStep_maxHr (n rate idx : ℕ) (s : PassState) (p : Trackpoint) :
    (passStep n rate idx s p).maxHr =
      (if 0 < p.hr ∧ s.maxHr < p.hr then p.hr else s.maxHr) := by
  by_cases h : ((s.splitIndex : ℚ) * 1000 ≤ if s.totalDistance < p.dist then p.dist else s.totalDistance)
  · simp only [passStep, if_pos h]
  · simp only [passStep, if_neg h]

theorem passStep_elevationGain (n rate idx : ℕ) (s : PassState) (p : Trackpoint) :
    (passStep n rate idx s p).elevationGain =
      s.elevationGain + altContrib s.lastAltitude (p.alt.getD s.lastAltitude) := by
  have hbody :
      (match p.alt with
        | none => s.elevationGain
        | some a =>
            if s.lastAltitude ≠ -9999 ∧ s.lastAltitude < a ∧ (0.2 : ℚ) < a - s.lastAltitude then
              s.elevationGain + (a - s.lastAltitude)
            else s.elevationGain) =
        s.elevationGain + altContrib s.lastAltitude (p.alt.getD s.lastAltitude) := by
    cases p.alt with
    | none => simp [altContrib]
    | some a =>
        simp only [Option.getD_some, altContrib]
        split <;> simp
  by_cases h : ((s.splitIndex : ℚ) * 1000 ≤ if s.totalDistance < p.dist then p.dist else s.totalDistance)
  · simp only [passStep, if_pos h]; exact hbody
  · simp only [passStep, if_neg h]; exact hbody

theorem passStep_lastAltitude (n rate idx : ℕ) (s : PassState) (p : Trackpoint) :
    (passStep n rate idx s p).lastAltitude = p.alt.getD s.lastAltitude := by
  have hbody :
      (match p.alt with
        | none => s.lastAltitude
        | some a => a) = p.alt.getD s.lastAltitude := by
    cases p.alt <;> simp
  by_cases h : ((s.splitIndex : ℚ) * 1000 ≤ if s.totalDistance < p.dist then p.dist else s.totalDistance)
  · simp only [passStep, if_pos h]; exact hbody
  · simp only [passStep, if_neg h]; exact hbody

theorem passStep_seriesSample (n rate idx : ℕ) (s : PassState) (p : Trackpoint) :
    (passStep n rate idx s p).seriesSample =
      (if idx % rate = 0 ∨ idx = n - 1 then s.seriesSample ++ [dataPointOf p]
       else s.seriesSample) := by
  by_cases h : ((s.splitIndex : ℚ) * 1000 ≤ if s.totalDistance < p.dist then p.dist else s.totalDistance)
  · simp only [passStep, if_pos h]; rfl
  · simp only [passStep, if_neg h]; rfl

theorem passStep_splitIndex (n rate idx : ℕ) (s : PassState) (p : Trackpoint) :
    (passStep n rate idx s p).splitIndex =
      (if (s.splitIndex : ℚ) * 1000 ≤ (if s.totalDistance < p.dist then p.dist else s.totalDistance)
       then s.splitIndex + 1 else s.splitIndex) := by
  by_cases h : ((s.splitIndex : ℚ) * 1000 ≤ if s.totalDistance < p.dist then p.dist else s.totalDistance)
  · simp only [passStep, if_pos h]
  · simp only [passStep, if_neg h]

theorem passStep_splits_kilometers (n rate idx : ℕ) (s : PassState) (p : Trackpoint) :
    (passStep n rate idx s p).splits.map (fun sp => sp.kilometer) =
      (if (s.splitIndex : ℚ) * 1000 ≤ (if s.totalDistance < p.dist then p.dist else s.totalDistance)
       then s.splits.map (fun sp => sp.kilometer) ++ [s.splitIndex]
       else s.splits.map (fun sp => sp.kilometer)) := by
  by_cases h : ((s.splitIndex : ℚ) * 1000 ≤ if s.totalDistance < p.dist then p.dist else s.totalDistance)
  · simp only [passStep, if_pos h]; simp
  · simp only [passStep, if_neg h]

theorem passStep_splits_length (n rate idx : ℕ) (s : PassState) (p : Trackpoint) :
    (passStep n rate idx s p).splits.length =
      (if (s.splitIndex : ℚ) * 1000 ≤ (if s.totalDistance < p.dist then p.dist else s.totalDistance)
       then s.splits.length + 1 else s.splits.length) := by
  by_cases h : ((s.splitIndex : ℚ) * 1000 ≤ if s.totalDistance < p.dist then p.dist else s.totalDistance)
  · simp only [passStep, if_pos h]; simp
  · simp only [passStep, if_neg h]

/-! ## The sliding window: bounds and optimality -/

/-- A contiguous sample window `(i, j)` qualifying for target distance `d`. -/
def Qual (raw : List RawPoint) (d : ℚ) (i j : ℕ) : Prop :=
  i ≤ j ∧ j < raw.length ∧ d ≤ rpDist raw j - rpDist raw i

/-- An optional value that is defined and at most `x`. -/
def optLE (b : Option ℚ) (x : ℚ) : Prop := ∃ v, b = some v ∧ v ≤ x

/-- Timestamps non-decreasing in sample order. -/
def TimeMono (raw : List RawPoint) : Prop :=
  ∀ i j, i ≤ j → j < raw.length → rpTime raw i ≤ rpTime raw j

/-- Cumulative distances non-decreasing in sample order. -/
def DistMono (raw : List RawPoint) : Prop :=
  ∀ i j, i ≤ j → j < raw.length → rpDist raw i ≤ rpDist raw j

theorem rpDist_val (raw : List RawPoint) (i : ℕ) :
    (raw.getD i default).dist = rpDist raw i := rfl

theorem rpTime_val (raw : List RawPoint) (i : ℕ) :
    (raw.getD i default).time = rpTime raw i := rfl

theorem drop_cons_of_lt (raw : List RawPoint) (r : ℕ) (h : r < raw.length) :
    raw.drop r = raw.getD r default :: raw.drop (r + 1) := by
  rw [List.drop_eq_getElem_cons h, List.getD_eq_getElem _ _ h]

theorem drop_eq_cons_elim (raw : List RawPoint) (r : ℕ) (pr : RawPoint)
    (rs : List RawPoint) (h : raw.drop r = pr :: rs) :
    r < raw.length ∧ pr = raw.getD r default ∧ rs = raw.drop (r + 1) := by
  have hr : r < raw.length := by
    by_contra hc
    rw [List.drop_eq_nil_iff.mpr (by omega)] at h
    exact List.noConfusion h
  rw [drop_cons_of_lt raw r hr] at h
  exact ⟨hr, (List.cons.injEq _ _ _ _ ▸ h).1.symm, (List.cons.injEq _ _ _ _ ▸ h).2.symm⟩

theorem updateBest_le {b : Option ℚ} {x : ℚ} (t : ℚ) (h : optLE b x) :
    optLE (updateBest b t) x := by
  rcases h with ⟨v, hv, hle⟩
  subst hv
  by_cases h : t < v
  · exact ⟨t, by simp [updateBest, h], le_trans (le_of_lt h) hle⟩
  · exact ⟨v, by simp [updateBest, h], hle⟩

theorem updateBest_le_self (b : Option ℚ) (t : ℚ) : optLE (updateBest b t) t := by
  cases b with
  | none => exact ⟨t, rfl, le_refl t⟩
  | some v =>
      by_cases h : t < v
      · exact ⟨t, by simp [updateBest, h], le_refl t⟩
      · exact ⟨v, by simp [updateBest, h], not_lt.mp h⟩

theorem updateBest_sound {b : Option ℚ} {t v : ℚ} (h : updateBest b t = some v) :
    v = t ∨ b = some v := by
  cases b with
  | none => simp [updateBest] at h; exact Or.inl h.symm
  | some w =>
      by_cases hc : t < w
      · simp [updateBest, hc] at h; exact Or.inl h.symm
      · simp [updateBest, hc] at h; exact Or.inr (by rw [h])

theorem shrinkGo_spec (raw : List RawPoint) (target : ℚ) (ht : 0 < target) (r : ℕ)
    (hr : r < raw.length) :
    ∀ (k l : ℕ), r - l ≤ k → l < r → target ≤ rpDist raw r - rpDist raw l →
      ∃ l2, l ≤ l2 ∧ l2 < r ∧
        shrinkGo target (rpDist raw r) (raw.getD l default) (raw.drop (l + 1)) =
          some (raw.getD l2 default, raw.drop (l2 + 1)) ∧
        target ≤ rpDist raw r - rpDist raw l2 ∧
        rpDist raw r - rpDist raw (l2 + 1) < target := by
  intro k
  induction k with
  | zero => intro l hk hlr _; omega
  | succ k ih =>
      intro l hk hlr hq
      have hl1 : l + 1 < raw.length := by omega
      rw [drop_cons_of_lt raw (l + 1) hl1]
      by_cases hcond : target ≤ rpDist raw r - rpDist raw (l + 1)
      · have hne : l + 1 ≠ r := by
          intro he
          rw [he] at hcond
          simp at hcond
          linarith
        have hlt : l + 1 < r := by omega
        obtain ⟨l2, h1, h2, h3, h4, h5⟩ := ih (l + 1) (by omega) hlt hcond
        refine ⟨l2, by omega, h2, ?_, h4, h5⟩
        rw [shrinkGo, rpDist_val, if_pos hcond]
        exact h3
      · refine ⟨l, le_refl l, hlr, ?_, hq, by linarith⟩
        rw [shrinkGo, rpDist_val, if_neg hcond]
        rw [← drop_cons_of_lt raw (l + 1) hl1]

theorem beGo_no_crash (raw : List RawPoint) (target : ℚ) (ht : 0 < target) :
    ∀ (rs : List RawPoint) (r l : ℕ) (best : Option ℚ),
      rs = raw.drop r → l ≤ r →
      ∃ b, beGo target rs (raw.getD l default) (raw.drop (l + 1)) best = some b := by
  intro rs
  induction rs with
  | nil => intro r l best _ _; exact ⟨best, rfl⟩
  | cons pr rs' ih =>
      intro r l best hdrop hlr
      obtain ⟨hr, hpr, hrs'⟩ := drop_eq_cons_elim raw r pr rs' hdrop.symm
      subst hpr
      rw [beGo]
      by_cases hqual : target ≤ (raw.getD r default).dist - (raw.getD l default).dist
      · have hlnr : l ≠ r := by
          intro he; rw [he] at hqual; simp at hqual; linarith
        obtain ⟨l2, hl2a, hl2b, hl2eq, _, _⟩ :=
          shrinkGo_spec raw target ht r hr r l (by omega) (by omega) hqual
        rw [if_pos hqual, rpDist_val raw r, hl2eq]
        exact ih (r + 1) l2 _ hrs' (by omega)
      · rw [if_neg hqual]
        exact ih (r + 1) l best hrs' (by omega)

theorem bestEffortRun_no_crash (raw : List RawPoint) (target : ℚ) (ht : 0 < target) :
    ∃ b, bestEffortRun raw target = some b := by
  cases raw with
  | nil => exact ⟨none, rfl⟩
  | cons p0 rest =>
      have h := beGo_no_crash (p0 :: rest) target ht (p0 :: rest) 0 0 none rfl (le_refl 0)
      simpa [bestEffortRun] using h

theorem beGo_min (raw : List RawPoint) (target : ℚ) (ht : 0 < target)
    (hT : TimeMono raw) (hD : DistMono raw) :
    ∀ (rs : List RawPoint) (r l : ℕ) (best : Option ℚ),
      rs = raw.drop r → l ≤ r →
      (∀ v, best = some v → ∃ i j, Qual raw target i j ∧ elapsedQ raw i j = v) →
      (∀ i j, Qual raw target i j → j < r → optLE best (elapsedQ raw i j)) →
      (∀ i j, i < l → r ≤ j → j < raw.length → optLE best (elapsedQ raw i j)) →
      ∃ b, beGo target rs (raw.getD l default) (raw.drop (l + 1)) best = some b ∧
        (∀ v, b = some v → ∃ i j, Qual raw target i j ∧ elapsedQ raw i j = v) ∧
        (∀ i j, Qual raw target i j → optLE b (elapsedQ raw i j)) := by
  intro rs
  induction rs with
  | nil =>
      intro r l best hdrop hlr hSound hMin hDom
      refine ⟨best, rfl, hSound, ?_⟩
      intro i j hq
      have hlen : raw.length ≤ r := List.drop_eq_nil_iff.mp hdrop.symm
      exact hMin i j hq (by rcases hq with ⟨_, h2, _⟩; omega)
  | cons pr rs' ih =>
      intro r l best hdrop hlr hSound hMin hDom
      obtain ⟨hr, hpr, hrs'⟩ := drop_eq_cons_elim raw r pr rs' hdrop.symm
      subst hpr
      rw [beGo]
      by_cases hqual : target ≤ (raw.getD r default).dist - (raw.getD l default).dist
      · have hqual' : target ≤ rpDist raw r - rpDist raw l := hqual
        have hlnr : l ≠ r := by
          intro he
          rw [he, sub_self] at hqual'
          linarith
        obtain ⟨l2, hl2a, hl2b, hl2eq, hl2q, hl2max⟩ :=
          shrinkGo_spec raw target ht r hr r l (by omega) (by omega) hqual'
        rw [if_pos hqual, rpDist_val raw r, hl2eq]
        set t : ℚ := elapsedQ raw l2 r with hts
        set best' := updateBest best t with hbest'
        have hQlr : Qual raw target l2 r := ⟨le_of_lt hl2b, hr, hl2q⟩
        have hbt : optLE best' t := updateBest_le_self best t
        have hSound' : ∀ v, best' = some v → ∃ i j, Qual raw target i j ∧ elapsedQ raw i j = v := by
          intro v hv
          rcases updateBest_sound hv with hvt | hvb
          · exact ⟨l2, r, hQlr, hvt ▸ rfl⟩
          · exact hSound v hvb
        have hMin' : ∀ i j, Qual raw target i j → j < r + 1 → optLE best' (elapsedQ raw i j) := by
          intro i j hq hjr1
          by_cases hjr : j < r
          · exact updateBest_le t (hMin i j hq hjr)
          · have hj : j = r := by omega
            subst hj
            by_cases hil : i < l
            · exact updateBest_le t (hDom i j hil (le_refl j) hr)
            · have hilen : i < raw.length := by rcases hq with ⟨h1, h2, _⟩; omega
              have hile : i ≤ l2 := by
                by_contra hc
                push_neg at hc
                have hmono : rpDist raw (l2 + 1) ≤ rpDist raw i := hD (l2 + 1) i (by omega) hilen
                rcases hq with ⟨_, _, hq3⟩
                linarith
              have htime : rpTime raw i ≤ rpTime raw l2 := hT i l2 hile (by omega)
              have hle : t ≤ elapsedQ raw i j := by
                rw [hts]
                unfold elapsedQ
                apply (div_le_div_iff_of_pos_right (by norm_num : (0:ℚ) < 1000)).mpr
                linarith
              rcases hbt with ⟨v, hv, hvle⟩
              exact ⟨v, hv, le_trans hvle hle⟩
        have hDom' : ∀ i j, i < l2 → r + 1 ≤ j → j < raw.length → optLE best' (elapsedQ raw i j) := by
          intro i j hil2 hrj hjlen
          by_cases hil : i < l
          · exact updateBest_le t (hDom i j hil (by omega) hjlen)
          · have htj : rpTime raw r ≤ rpTime raw j := hT r j (by omega) hjlen
            have hti : rpTime raw i ≤ rpTime raw l2 := hT i l2 (by omega) (by omega)
            have hle : t ≤ elapsedQ raw i j := by
              rw [hts]
              unfold elapsedQ
              apply (div_le_div_iff_of_pos_right (by norm_num : (0:ℚ) < 1000)).mpr
              linarith
            rcases hbt with ⟨v, hv, hvle⟩
            exact ⟨v, hv, le_trans hvle hle⟩
        exact ih (r + 1) l2 best' hrs' (by omega) hSound' hMin' hDom'
      · rw [if_neg hqual]
        have hqual' : ¬ target ≤ rpDist raw r - rpDist raw l := hqual
        have hMin' : ∀ i j, Qual raw target i j → j < r + 1 → optLE best (elapsedQ raw i j) := by
          intro i j hq hjr1
          by_cases hjr : j < r
          · exact hMin i j hq hjr
          · have hj : j = r := by omega
            subst hj
            by_cases hil : i < l
            · exact hDom i j hil (le_refl j) hr
            · exfalso
              have hmono : rpDist raw l ≤ rpDist raw i := hD l i (by omega) (by rcases hq with ⟨h1, h2, _⟩; omega)
              rcases hq with ⟨_, _, hq3⟩
              exact hqual' (by linarith)
        exact ih (r + 1) l best hrs' (by omega) hSound hMin'
          (fun i j hi hj hl => hDom i j hi (by omega) hl)

theorem foldlMin_mono (xs : List ℚ) :
    ∀ (b : Option ℚ) (x : ℚ), optLE b x → optLE (xs.foldl updateBest b) x := by
  induction xs with
  | nil => intro b x h; exact h
  | cons a xs ih => intro b x h; exact ih (updateBest b a) x (updateBest_le a h)

theorem foldlMin_le (xs : List ℚ) :
    ∀ (b : Option ℚ) (x : ℚ), x ∈ xs → optLE (xs.foldl updateBest b) x := by
  induction xs with
  | nil => intro b x h; exact absurd h (List.not_mem_nil x)
  | cons a xs ih =>
      intro b x h
      rcases List.mem_cons.mp h with he | hm
      · subst he
        exact foldlMin_mono xs (updateBest b x) x (updateBest_le_self b x)
      · exact ih (updateBest b a) x hm

theorem foldlMin_sound (xs : List ℚ) :
    ∀ (b : Option ℚ) (v : ℚ), xs.foldl updateBest b = some v → v ∈ xs ∨ b = some v := by
  induction xs with
  | nil => intro b v h; exact Or.inr h
  | cons a xs ih =>
      intro b v h
      rcases ih (updateBest b a) v h with hm | hu
      · exact Or.inl (List.mem_cons_of_mem a hm)
      · rcases updateBest_sound hu with hv | hb
        · exact Or.inl (hv ▸ List.mem_cons_self a xs)
        · exact Or.inr hb

theorem listMin_le (xs : List ℚ) (x : ℚ) (h : x ∈ xs) : optLE (listMin xs) x :=
  foldlMin_le xs none x h

theorem listMin_sound (xs : List ℚ) (v : ℚ) (h : listMin xs = some v) : v ∈ xs := by
  rcases foldlMin_sound xs none v h with hm | hu
  · exact hm
  · exact absurd hu (by simp)

theorem mem_windowPairs (n : ℕ) (w : ℕ × ℕ) :
    w ∈ windowPairs n ↔ w.1 ≤ w.2 ∧ w.2 < n := by
  cases w with
  | mk i j =>
      simp only [windowPairs, List.mem_flatMap, List.mem_map, List.mem_range]
      constructor
      · rintro ⟨a, ha, i', hi', he⟩
        rw [Prod.mk.injEq] at he
        rcases he with ⟨he1, he2⟩
        subst he1; subst he2
        exact ⟨by omega, ha⟩
      · rintro ⟨hij, hjn⟩
        exact ⟨j, hjn, i, by omega, rfl⟩

theorem mem_specWindowTimes (raw : List RawPoint) (d x : ℚ) :
    x ∈ specWindowTimes raw d ↔ ∃ i j, Qual raw d i j ∧ elapsedQ raw i j = x := by
  simp only [specWindowTimes, List.mem_map, List.mem_filter, decide_eq_true_eq]
  constructor
  · rintro ⟨w, ⟨hwmem, hwd⟩, hx⟩
    rw [mem_windowPairs] at hwmem
    exact ⟨w.1, w.2, ⟨hwmem.1, hwmem.2, hwd⟩, hx⟩
  · rintro ⟨i, j, ⟨h1, h2, h3⟩, hx⟩
    exact ⟨(i, j), ⟨(mem_windowPairs _ _).mpr ⟨h1, h2⟩, h3⟩, hx⟩

theorem bestEffortRun_min (raw : List RawPoint) (target : ℚ) (ht : 0 < target)
    (hT : TimeMono raw) (hD : DistMono raw) :
    bestEffortRun raw target = some (specBestTime raw target) := by
  cases raw with
  | nil => rfl
  | cons p0 rest =>
      obtain ⟨b, hb, hsound, hmin⟩ :=
        beGo_min (p0 :: rest) target ht hT hD (p0 :: rest) 0 0 none rfl (le_refl 0)
          (by intro v h; exact absurd h (by simp))
          (by intro i j _ h; omega)
          (by intro i j h; omega)
      have hb' : bestEffortRun (p0 :: rest) target = some b := hb
      rw [hb']
      congr 1
      cases hbv : b with
      | none =>
          have hempty : specWindowTimes (p0 :: rest) target = [] := by
            rw [List.eq_nil_iff_forall_not_mem]
            intro x hx
            obtain ⟨i, j, hq, _⟩ := (mem_specWindowTimes _ _ _).mp hx
            obtain ⟨v, hv, _⟩ := hmin i j hq
            rw [hbv] at hv
            exact Option.noConfusion hv
          rw [specBestTime, hempty]
          rfl
      | some vb =>
          obtain ⟨i, j, hq, hel⟩ := hsound vb hbv
          have hmem : vb ∈ specWindowTimes (p0 :: rest) target :=
            (mem_specWindowTimes _ _ _).mpr ⟨i, j, hq, hel⟩
          obtain ⟨vm, hvm, hvmle⟩ := listMin_le _ vb hmem
          obtain ⟨i', j', hq', hel'⟩ :=
            (mem_specWindowTimes _ _ _).mp (listMin_sound _ vm hvm)
          obtain ⟨vb', hvb', hvble⟩ := hmin i' j' hq'
          rw [hbv] at hvb'
          have hvbeq : vb' = vb := by
            injection hvb' with h
            exact h.symm
          rw [specBestTime, hvm]
          congr 1
          subst hvbeq
          rw [hel'] at hvble
          exact le_antisymm hvble hvmle

/-! ## Parse-level plumbing -/

theorem effortFor_some (raw : List RawPoint) (td target : ℚ) (ht : 0 < target) :
    ∃ es, effortFor raw td target = some es := by
  unfold effortFor
  by_cases h : target ≤ td
  · rw [if_pos h]
    obtain ⟨b, hb⟩ := bestEffortRun_no_crash raw target ht
    rw [hb]
    cases b with
    | none => exact ⟨[], rfl⟩
    | some bt => exact ⟨_, rfl⟩
  · rw [if_neg h]; exact ⟨[], rfl⟩

theorem mkBestEfforts_some (raw : List RawPoint) (td : ℚ) :
    ∃ es, mkBestEfforts raw td = some es := by
  obtain ⟨a, ha⟩ := effortFor_some raw td 1000 (by norm_num)
  obtain ⟨b, hb⟩ := effortFor_some raw td 5000 (by norm_num)
  obtain ⟨c, hc⟩ := effortFor_some raw td 10000 (by norm_num)
  refine ⟨a ++ b ++ c, ?_⟩
  simp [mkBestEfforts, ha, hb, hc]

theorem parse_fields (p : Trackpoint) (ps : List Trackpoint) (cal : Option ℤ) :
    ∃ r, parseTcxFileContent ⟨p :: ps, cal⟩ = .ok r ∧
      r.totalDistanceMeters = (passRun (p :: ps)).totalDistance ∧
      r.totalDurationSeconds =
        ((passRun (p :: ps)).endTime - (passRun (p :: ps)).startTime) / 1000 ∧
      r.avgHr = (if 0 < (passRun (p :: ps)).heartRateCount then
          jsRound (((passRun (p :: ps)).heartRateSum : ℚ) /
            ((passRun (p :: ps)).heartRateCount : ℚ))
        else 0) ∧
      r.maxHr = (passRun (p :: ps)).maxHr ∧
      r.elevationGain = (passRun (p :: ps)).elevationGain ∧
      r.trainingLoadScore =
        jsRound ((r.totalDurationSeconds / 60) *
          ((r.avgHr : ℚ) / (((if 0 < r.maxHr then r.maxHr else 190) : ℤ) : ℚ)) * 10) ∧
      r.splits = (passRun (p :: ps)).splits ∧
      r.seriesSample = (passRun (p :: ps)).seriesSample ∧
      mkBestEfforts (passRun (p :: ps)).rawPoints (passRun (p :: ps)).totalDistance =
        some r.bestEfforts := by
  obtain ⟨bes, hbes⟩ :=
    mkBestEfforts_some (passRun (p :: ps)).rawPoints (passRun (p :: ps)).totalDistance
  use
    { totalDistanceMeters := (passRun (p :: ps)).totalDistance
      totalDurationSeconds :=
        ((passRun (p :: ps)).endTime - (passRun (p :: ps)).startTime) / 1000
      avgHr := if 0 < (passRun (p :: ps)).heartRateCount then
          jsRound (((passRun (p :: ps)).heartRateSum : ℚ) /
            ((passRun (p :: ps)).heartRateCount : ℚ))
        else 0
      maxHr := (passRun (p :: ps)).maxHr
      avgCadence := if 0 < (passRun (p :: ps)).cadenceCount then
          some (jsRound (((passRun (p :: ps)).cadenceSum : ℚ) /
            ((passRun (p :: ps)).cadenceCount : ℚ)))
        else none
      elevationGain := (passRun (p :: ps)).elevationGain
      avgPaceSecondsPerKm := if 0 < (passRun (p :: ps)).totalDistance then
          (((passRun (p :: ps)).endTime - (passRun (p :: ps)).startTime) / 1000) /
            ((passRun (p :: ps)).totalDistance / 1000)
        else 0
      trainingLoadScore :=
        jsRound (((((passRun (p :: ps)).endTime - (passRun (p :: ps)).startTime) / 1000) / 60) *
          (((if 0 < (passRun (p :: ps)).heartRateCount then
              jsRound (((passRun (p :: ps)).heartRateSum : ℚ) /
                ((passRun (p :: ps)).heartRateCount : ℚ))
            else 0 : ℤ) : ℚ) /
            (((if 0 < (passRun (p :: ps)).maxHr then (passRun (p :: ps)).maxHr else 190) :
                ℤ) : ℚ)) * 10)
      totalCalories := cal
      splits := (passRun (p :: ps)).splits
      bestEfforts := bes
      seriesSample := (passRun (p :: ps)).seriesSample }
  refine ⟨?_, rfl, rfl, rfl, rfl, rfl, rfl, rfl, rfl, hbes⟩
  show parseTcxFileContent ⟨p :: ps, cal⟩ = _
  unfold parseTcxFileContent
  simp only [List.isEmpty_cons, Bool.false_eq_true, if_false]
  rw [hbes]

/-! ## Accumulated behaviour of the forward pass -/

theorem posHrs_cons (p : Trackpoint) (ps : List Trackpoint) :
    posHrs (p :: ps) = if 0 < p.hr then p.hr :: posHrs ps else posHrs ps := by
  by_cases h : 0 < p.hr <;> simp [posHrs, List.filterMap_cons, h]

theorem altitudeProfile_cons (p : Trackpoint) (ps : List Trackpoint) :
    altitudeProfile (p :: ps) =
      (match p.alt with
       | none => altitudeProfile ps
       | some a => a :: altitudeProfile ps) := by
  cases h : p.alt <;> simp [altitudeProfile, List.filterMap_cons, h]

theorem altContrib_self (a : ℚ) : altContrib a a = 0 := by
  simp [altContrib]

theorem passGo_rawPoints (n rate : ℕ) (ps : List Trackpoint) :
    ∀ (idx : ℕ) (s : PassState),
      (passGo n rate idx s ps).rawPoints = s.rawPoints ++ rawOf ps := by
  induction ps with
  | nil => intro idx s; simp [passGo, rawOf]
  | cons p ps ih =>
      intro idx s
      rw [passGo, ih, passStep_rawPoints]
      simp [rawOf]

theorem passGo_totalDistance (n rate : ℕ) (ps : List Trackpoint) :
    ∀ (idx : ℕ) (s : PassState),
      (passGo n rate idx s ps).totalDistance =
        ps.foldl (fun a p => if a < p.dist then p.dist else a) s.totalDistance := by
  induction ps with
  | nil => intro idx s; simp [passGo]
  | cons p ps ih =>
      intro idx s
      rw [passGo, ih]
      simp [passStep_totalDistance]

theorem passGo_endTime (n rate : ℕ) (ps : List Trackpoint) :
    ∀ (idx : ℕ) (s : PassState),
      (passGo n rate idx s ps).endTime = ps.foldl (fun _ p => p.time) s.endTime := by
  induction ps with
  | nil => intro idx s; simp [passGo]
  | cons p ps ih =>
      intro idx s
      rw [passGo, ih]
      simp [passStep_endTime]

theorem passGo_heartRateSum (n rate : ℕ) (ps : List Trackpoint) :
    ∀ (idx : ℕ) (s : PassState),
      (passGo n rate idx s ps).heartRateSum = s.heartRateSum + (posHrs ps).sum := by
  induction ps with
  | nil => intro idx s; simp [passGo, posHrs]
  | cons p ps ih =>
      intro idx s
      rw [passGo, ih, passStep_heartRateSum, posHrs_cons]
      by_cases h : 0 < p.hr <;> simp [h] <;> ring

theorem passGo_heartRateCount (n rate : ℕ) (ps : List Trackpoint) :
    ∀ (idx : ℕ) (s : PassState),
      (passGo n rate idx s ps).heartRateCount = s.heartRateCount + (posHrs ps).length := by
  induction ps with
  | nil => intro idx s; simp [passGo, posHrs]
  | cons p ps ih =>
      intro idx s
      rw [passGo, ih, passStep_heartRateCount, posHrs_cons]
      by_cases h : 0 < p.hr <;> simp [h] <;> omega

theorem passGo_maxHr (n rate : ℕ) (ps : List Trackpoint) :
    ∀ (idx : ℕ) (s : PassState),
      (passGo n rate idx s ps).maxHr =
        (posHrs ps).foldl (fun a v => if a < v then v else a) s.maxHr := by
  induction ps with
  | nil => intro idx s; simp [passGo, posHrs]
  | cons p ps ih =>
      intro idx s
      rw [passGo, ih, passStep_maxHr, posHrs_cons]
      by_cases h : 0 < p.hr <;> simp [h]

theorem passGo_seriesSample (n rate : ℕ) (ps : List Trackpoint) :
    ∀ (idx : ℕ) (s : PassState),
      (passGo n rate idx s ps).seriesSample =
        s.seriesSample ++
          ((List.range ps.length).filter
              (fun j => decide ((idx + j) % rate = 0 ∨ idx + j = n - 1))).map
            (fun j => dataPointOf (ps.getD j default)) := by
  induction ps with
  | nil => intro idx s; simp [passGo]
  | cons p ps ih =>
      intro idx s
      rw [passGo, ih, passStep_seriesSample]
      simp only [List.length_cons]
      rw [List.range_succ_eq_map, List.filter_cons]
      have hshift :
          ((List.range ps.length).map Nat.succ).filter
              (fun j => decide ((idx + j) % rate = 0 ∨ idx + j = n - 1)) =
            ((List.range ps.length).filter
                (fun j => decide ((idx + 1 + j) % rate = 0 ∨ idx + 1 + j = n - 1))).map
              Nat.succ := by
        rw [List.filter_map]
        congr 1
        apply List.filter_congr
        intro a _
        have hsucc : idx + Nat.succ a = idx + 1 + a := by omega
        simp only [Function.comp_apply, hsucc]
      rw [hshift]
      have hmapmap :
          ∀ (l : List ℕ),
            (l.map Nat.succ).map (fun j => dataPointOf ((p :: ps).getD j default)) =
              l.map (fun j => dataPointOf (ps.getD j default)) := by
        intro l
        rw [List.map_map]
        apply List.map_congr_left
        intro a _
        simp
      by_cases h : idx % rate = 0 ∨ idx = n - 1
      · have hd : decide ((idx + 0) % rate = 0 ∨ idx + 0 = n - 1) = true := by
          simpa using h
        rw [if_pos h, if_pos hd]
        simp only [List.map_cons, hmapmap]
        simp
      · have hd : ¬(decide ((idx + 0) % rate = 0 ∨ idx + 0 = n - 1) = true) := by
          simpa using h
        rw [if_neg h, if_neg hd, hmapmap]

theorem passGo_splits_inv (n rate : ℕ) (ps : List Trackpoint) :
    ∀ (idx : ℕ) (s : PassState),
      s.splits.map (fun sp => sp.kilometer) = List.range' 1 (s.splitIndex - 1) →
      s.splits.length + 1 = s.splitIndex →
      1 ≤ s.splitIndex →
      ((passGo n rate idx s ps).splits.map (fun sp => sp.kilometer) =
          List.range' 1 ((passGo n rate idx s ps).splitIndex - 1) ∧
        (passGo n rate idx s ps).splits.length + 1 = (passGo n rate idx s ps).splitIndex ∧
        1 ≤ (passGo n rate idx s ps).splitIndex) := by
  induction ps with
  | nil => intro idx s h1 h2 h3; simp only [passGo]; exact ⟨h1, h2, h3⟩
  | cons p ps ih =>
      intro idx s h1 h2 h3
      rw [passGo]
      apply ih
      · rw [passStep_splits_kilometers, passStep_splitIndex]
        by_cases h :
          ((s.splitIndex : ℚ) * 1000 ≤ if s.totalDistance < p.dist then p.dist else s.totalDistance)
        · rw [if_pos h, if_pos h, h1]
          rw [show s.splitIndex + 1 - 1 = (s.splitIndex - 1) + 1 by omega, List.range'_concat]
          congr 2
          omega
        · rw [if_neg h, if_neg h]; exact h1
      · rw [passStep_splits_length, passStep_splitIndex]
        by_cases h :
          ((s.splitIndex : ℚ) * 1000 ≤ if s.totalDistance < p.dist then p.dist else s.totalDistance)
        · rw [if_pos h, if_pos h]; omega
        · rw [if_neg h, if_neg h]; exact h2
      · rw [passStep_splitIndex]
        by_cases h :
          ((s.splitIndex : ℚ) * 1000 ≤ if s.totalDistance < p.dist then p.dist else s.totalDistance)
        · rw [if_pos h]; omega
        · rw [if_neg h]; exact h3

theorem runningMaxes_head (a : ℚ) (ps : List Trackpoint) :
    (runningMaxes a ps).head? = some a := by
  cases ps <;> simp [runningMaxes, List.scanl]

theorem passGo_splitIndex_floor (n rate : ℕ) (ps : List Trackpoint) :
    ∀ (idx : ℕ) (s : PassState),
      0 ≤ s.totalDistance →
      (s.splitIndex : ℤ) = ⌊s.totalDistance / 1000⌋ + 1 →
      List.Chain' (fun a b => ⌊b / 1000⌋ ≤ ⌊a / 1000⌋ + 1) (runningMaxes s.totalDistance ps) →
      (0 ≤ (passGo n rate idx s ps).totalDistance ∧
        ((passGo n rate idx s ps).splitIndex : ℤ) =
          ⌊(passGo n rate idx s ps).totalDistance / 1000⌋ + 1) := by
  induction ps with
  | nil => intro idx s h0 h1 _; simp only [passGo]; exact ⟨h0, h1⟩
  | cons p ps ih =>
      intro idx s h0 h1 hch
      have hscan : runningMaxes s.totalDistance (p :: ps) =
          s.totalDistance ::
            runningMaxes (if s.totalDistance < p.dist then p.dist else s.totalDistance) ps := by
        simp [runningMaxes, List.scanl]
      rw [hscan, List.chain'_cons'] at hch
      rcases hch with ⟨hrel, hch⟩
      have hrel' :
          ⌊(if s.totalDistance < p.dist then p.dist else s.totalDistance) / 1000⌋ ≤
            ⌊s.totalDistance / 1000⌋ + 1 := by
        apply hrel
        rw [Option.mem_def, runningMaxes_head]
      set td' : ℚ := if s.totalDistance < p.dist then p.dist else s.totalDistance with htd'
      have htdle : s.totalDistance ≤ td' := by
        rw [htd']; split <;> simp_all [le_of_lt]
      have h0' : 0 ≤ td' := le_trans h0 htdle
      have hfle : ⌊s.totalDistance / 1000⌋ ≤ ⌊td' / 1000⌋ := by
        apply Int.floor_le_floor
        exact (div_le_div_iff_of_pos_right (by norm_num)).mpr htdle
      rw [passGo]
      apply ih
      · rw [passStep_totalDistance]; exact h0'
      · rw [passStep_splitIndex, passStep_totalDistance, ← htd']
        by_cases h : ((s.splitIndex : ℚ) * 1000 ≤ td')
        · rw [if_pos h]
          have hkf : (s.splitIndex : ℤ) ≤ ⌊td' / 1000⌋ := by
            rw [Int.le_floor]
            push_cast
            rw [le_div_iff₀ (by norm_num : (0:ℚ) < 1000)]
            exact h
          push_cast
          omega
        · rw [if_neg h]
          have hkf : ¬((s.splitIndex : ℤ) ≤ ⌊td' / 1000⌋) := by
            rw [Int.le_floor]
            push_cast
            rw [le_div_iff₀ (by norm_num : (0:ℚ) < 1000)]
            exact h
          push_cast
          omega
      · rw [passStep_totalDistance, ← htd']
        exact hch

theorem passGo_elevation (n rate : ℕ) (ps : List Trackpoint) :
    ∀ (idx : ℕ) (s : PassState),
      (passGo n rate idx s ps).elevationGain =
          s.elevationGain + chainGain s.lastAltitude (altitudeProfile ps) ∧
        (passGo n rate idx s ps).lastAltitude =
          (altitudeProfile ps).foldl (fun _ a => a) s.lastAltitude := by
  induction ps with
  | nil => intro idx s; simp [passGo, altitudeProfile, chainGain]
  | cons p ps ih =>
      intro idx s
      rw [passGo]
      rcases ih (idx + 1) (passStep n rate idx s p) with ⟨hg, hl⟩
      rw [hg, hl, passStep_elevationGain, passStep_lastAltitude, altitudeProfile_cons]
      cases h : p.alt with
      | none => simp [altContrib_self]
      | some a => simp [chainGain]; ring

/-! ## Further helpers -/

theorem passRun_totalDistance (pts : List Trackpoint) :
    (passRun pts).totalDistance = distTotal pts := by
  unfold passRun distTotal
  rw [passGo_totalDistance]
  rfl

theorem parse_map_eq {β : Type} (f : ParsedActivityData → β)
    {e : Except ParseError ParsedActivityData} {r : ParsedActivityData} (h : e = .ok r) :
    e.toOption.map f = some (f r) := by
  rw [h]; rfl

theorem passRun_rawPoints (pts : List Trackpoint) :
    (passRun pts).rawPoints = rawOf pts := by
  unfold passRun
  rw [passGo_rawPoints]
  rfl

theorem foldl_maxI_nonneg (xs : List ℤ) :
    ∀ a : ℤ, 0 ≤ a → 0 ≤ xs.foldl (fun a v => if a < v then v else a) a := by
  induction xs with
  | nil => intro a h; exact h
  | cons x xs ih =>
      intro a h
      simp only [List.foldl_cons]
      by_cases hx : a < x
      · rw [if_pos hx]; exact ih x (by omega)
      · rw [if_neg hx]; exact ih a h

theorem passRun_maxHr_nonneg (pts : List Trackpoint) : 0 ≤ (passRun pts).maxHr := by
  unfold passRun
  rw [passGo_maxHr]
  exact foldl_maxI_nonneg _ _ (le_refl 0)

theorem parse_empty (cal : Option ℤ) :
    parseTcxFileContent ⟨[], cal⟩ = .error .noData := rfl

/-! ## Claim theorems -/

/-- Claim C8: the pure formatting helpers render duration 125 s as 2:05,
duration 3725 s as 1:02:05 (hours omitted under one hour, shown otherwise),
and pace 330 s/km as 5 minutes 30 seconds per km with the minute mark
`apos` and the second mark `quotMark`. -/
theorem c8_formatting_helpers :
    formatDuration 125 = "2:05" ∧ formatDuration 3725 = "1:02:05" ∧
      formatPace 330 = "5" ++ apos ++ "30" ++ quotMark ++ "/km" := by
  refine ⟨?_, ?_, ?_⟩
  · norm_num [formatDuration, jsRem, ratTrunc, padStart2]
    rfl
  · norm_num [formatDuration, jsRem, ratTrunc, padStart2]
    rfl
  · norm_num [formatPace, jsRem, ratTrunc, padStart2]
    rfl

/-- Claim C6: for every recording, the output trainingLoadScore equals
round of duration-in-minutes times (average heart rate over effective max
heart rate) times 10, where the effective max heart rate is the observed
maximum heart rate when it is nonzero and 190 otherwise. -/
theorem c6_training_load_formula (doc : TcxDoc) :
    (parseTcxFileContent doc).toOption.map (fun r => r.trainingLoadScore) =
      (parseTcxFileContent doc).toOption.map (fun r =>
        jsRound ((r.totalDurationSeconds / 60) *
          ((r.avgHr : ℚ) / (((if r.maxHr = 0 then 190 else r.maxHr) : ℤ) : ℚ)) * 10)) := by
  rcases doc with ⟨pts, cal⟩
  cases pts with
  | nil => rfl
  | cons p ps =>
      obtain ⟨r, hok, _, _, _, hmax, _, htls, _, _, _⟩ := parse_fields p ps cal
      rw [parse_map_eq _ hok, parse_map_eq _ hok]
      congr 1
      rw [htls]
      have hnn : 0 ≤ r.maxHr := hmax ▸ passRun_maxHr_nonneg (p :: ps)
      by_cases hz : r.maxHr = 0
      · rw [if_pos hz, if_neg (by omega)]
      · rw [if_neg hz, if_pos (by omega)]

/-- Claim C9: for every input in which no sample carries a heart rate
greater than 0, the parse result has avgHr 0, maxHr 0 and
trainingLoadScore 0. -/
theorem c9_no_hr_zeroes (p : Trackpoint) (ps : List Trackpoint) (cal : Option ℤ)
    (hhr : ∀ q ∈ p :: ps, q.hr ≤ 0) :
    (parseTcxFileContent ⟨p :: ps, cal⟩).toOption.map
      (fun r => (r.avgHr, r.maxHr, r.trainingLoadScore)) = some (0, 0, 0) := by
  obtain ⟨r, hok, _, _, havg, hmax, _, htls, _, _, _⟩ := parse_fields p ps cal
  have hpos : posHrs (p :: ps) = [] := by
    rw [posHrs, List.filterMap_eq_nil]
    intro q hq
    rw [if_neg (by exact not_lt.mpr (hhr q hq))]
  have hcount : (passRun (p :: ps)).heartRateCount = 0 := by
    unfold passRun
    rw [passGo_heartRateCount, hpos]
    rfl
  have havg0 : r.avgHr = 0 := by rw [havg, hcount]; simp
  have hmax0 : r.maxHr = 0 := by
    rw [hmax]
    unfold passRun
    rw [passGo_maxHr, hpos]
    rfl
  have htls0 : r.trainingLoadScore = 0 := by
    rw [htls, havg0, hmax0]
    norm_num [jsRound]
  rw [parse_map_eq _ hok, havg0, hmax0, htls0]

/-- Witness for claim C9 at a concrete one-sample document. -/
theorem c9_witness :
    (parseTcxFileContent ⟨[⟨0, 0, 0, 0, none⟩], none⟩).toOption.map
      (fun r => (r.avgHr, r.maxHr, r.trainingLoadScore)) = some (0, 0, 0) :=
  c9_no_hr_zeroes ⟨0, 0, 0, 0, none⟩ [] none (by
    intro q hq
    simp only [List.mem_singleton] at hq
    subst hq
    norm_num)

/-- Claim C3: the parser raises the no-data error exactly on documents with
zero samples, and succeeds on every document with at least one sample. -/
theorem c3_no_data_error (doc : TcxDoc) :
    (parseTcxFileContent doc = .error .noData ↔ doc.trackpoints = []) ∧
      ((∃ r, parseTcxFileContent doc = .ok r) ↔ doc.trackpoints ≠ []) := by
  rcases doc with ⟨pts, cal⟩
  cases pts with
  | nil =>
      constructor
      · simp [parse_empty]
      · constructor
        · rintro ⟨r, hr⟩
          rw [parse_empty] at hr
          exact Except.noConfusion hr
        · intro h; exact absurd rfl h
  | cons p ps =>
      obtain ⟨r, hok, _⟩ := parse_fields p ps cal
      constructor
      · constructor
        · intro h; rw [hok] at h; exact Except.noConfusion h
        · intro h; exact List.noConfusion h
      · constructor
        · intro _; exact List.noConfusion
        · intro _; exact ⟨r, hok⟩

/-- Claim C10: the sliding-window pass never reads past the end of the
raw-points array (the window shrink keeps the left read in bounds), for
every input and each target distance, and consequently the parser never
fails with the runtime-crash outcome. -/
theorem c10_window_in_bounds (raw : List RawPoint) (doc : TcxDoc) :
    (∃ b, bestEffortRun raw 1000 = some b) ∧
      (∃ b, bestEffortRun raw 5000 = some b) ∧
      (∃ b, bestEffortRun raw 10000 = some b) ∧
      (parseTcxFileContent doc = .error .noData ∨ ∃ r, parseTcxFileContent doc = .ok r) := by
  refine ⟨bestEffortRun_no_crash raw 1000 (by norm_num),
    bestEffortRun_no_crash raw 5000 (by norm_num),
    bestEffortRun_no_crash raw 10000 (by norm_num), ?_⟩
  rcases doc with ⟨pts, cal⟩
  cases pts with
  | nil => exact Or.inl (parse_empty cal)
  | cons p ps =>
      obtain ⟨r, hok, _⟩ := parse_fields p ps cal
      exact Or.inr ⟨r, hok⟩

/-! ## Helpers for distance, elevation and series claims -/

theorem ite_lt_eq_max (a b : ℚ) : (if a < b then b else a) = max a b := by
  rcases lt_or_le a b with h | h
  · rw [if_pos h, max_eq_right (le_of_lt h)]
  · rw [if_neg (not_lt.mpr h), max_eq_left h]

theorem foldl_ite_eq_max (l : List Trackpoint) :
    ∀ a : ℚ, l.foldl (fun a p => if a < p.dist then p.dist else a) a =
      (l.map fun p => p.dist).foldl max a := by
  induction l with
  | nil => intro a; rfl
  | cons p l ih =>
      intro a
      simp only [List.foldl_cons, List.map_cons]
      rw [ite_lt_eq_max, ih]

theorem foldl_max_init (xs : List ℚ) :
    ∀ a b : ℚ, xs.foldl max (max b a) = max b (xs.foldl max a) := by
  induction xs with
  | nil => intro a b; rfl
  | cons x xs ih =>
      intro a b
      simp only [List.foldl_cons]
      rw [max_assoc, ih]

theorem foldl_max_le_acc (xs : List ℚ) : ∀ a : ℚ, a ≤ xs.foldl max a := by
  induction xs with
  | nil => intro a; exact le_refl a
  | cons x xs ih => intro a; exact le_trans (le_max_left a x) (ih (max a x))

theorem foldl_max_le_of (xs : List ℚ) :
    ∀ a c : ℚ, a ≤ c → (∀ x ∈ xs, x ≤ c) → xs.foldl max a ≤ c := by
  induction xs with
  | nil => intro a c h _; exact h
  | cons x xs ih =>
      intro a c h hall
      simp only [List.foldl_cons]
      exact ih _ c (max_le h (hall x (List.mem_cons_self x xs)))
        (fun y hy => hall y (List.mem_cons_of_mem x hy))

theorem le_foldl_max (xs : List ℚ) :
    ∀ (a x : ℚ), x ∈ xs → x ≤ xs.foldl max a := by
  induction xs with
  | nil => intro a x h; exact absurd h (List.not_mem_nil x)
  | cons y xs ih =>
      intro a x h
      rcases List.mem_cons.mp h with he | hm
      · subst he
        exact le_trans (le_max_right a x) (foldl_max_le_acc xs (max a x))
      · exact ih (max a y) x hm

theorem specMaxSeenDist_aux (xs : List ℚ) :
    ∀ a : ℚ, xs.foldl (fun acc x => some (max ((acc).getD x) x)) (some a) =
      some (xs.foldl max a) := by
  induction xs with
  | nil => intro a; rfl
  | cons x xs ih =>
      intro a
      simp only [List.foldl_cons, Option.getD_some]
      exact ih (max a x)

theorem specMaxSeenDist_cons (p : Trackpoint) (ps : List Trackpoint) :
    specMaxSeenDist (p :: ps) = some ((ps.map fun q => q.dist).foldl max p.dist) := by
  unfold specMaxSeenDist
  simp only [List.map_cons, List.foldl_cons, Option.getD_none, max_self]
  exact specMaxSeenDist_aux _ p.dist

theorem distTotal_eq_max (p : Trackpoint) (ps : List Trackpoint) :
    distTotal (p :: ps) = max 0 ((ps.map fun q => q.dist).foldl max p.dist) := by
  unfold distTotal
  rw [foldl_ite_eq_max]
  simp only [List.map_cons, List.foldl_cons]
  rw [← foldl_max_init]

/-- Claim C4 (amended): during the forward pass the running total distance
is non-decreasing in the sample index, and the output totalDistanceMeters
equals the maximum of 0 and the maximum cumulative-distance value seen
across all samples (the accumulator starts at 0, so a recording whose
samples all carry negative cumulative distances reports 0). -/
theorem c4_running_max (p : Trackpoint) (ps : List Trackpoint) (cal : Option ℤ) :
    (∀ k, runningDistance (p :: ps) k ≤ runningDistance (p :: ps) (k + 1)) ∧
      ∀ v, specMaxSeenDist (p :: ps) = some v →
        (parseTcxFileContent ⟨p :: ps, cal⟩).toOption.map (fun r => r.totalDistanceMeters) =
          some (max 0 v) := by
  constructor
  · intro k
    unfold runningDistance
    rw [passGo_totalDistance, passGo_totalDistance]
    rw [foldl_ite_eq_max, foldl_ite_eq_max]
    rw [List.take_succ, List.map_append]
    rw [List.foldl_append]
    cases h : (p :: ps)[k]? with
    | none => simp
    | some q =>
        simp only [Option.toList_some, List.map_cons, List.map_nil, List.foldl_cons,
          List.foldl_nil]
        exact le_max_left _ _
  · intro v hv
    rw [specMaxSeenDist_cons] at hv
    obtain ⟨r, hok, htd, _⟩ := parse_fields p ps cal
    rw [parse_map_eq _ hok, htd, passRun_totalDistance, distTotal_eq_max]
    injection hv with hv
    rw [hv]

/-- Claim C4 counterexample: a one-sample recording with cumulative
distance -1 reports totalDistanceMeters 0, not the maximum seen value -1. -/
theorem c4_counterexample :
    specMaxSeenDist [⟨0, -1, 0, 0, none⟩] = some (-1) ∧
      (parseTcxFileContent ⟨[⟨0, -1, 0, 0, none⟩], none⟩).toOption.map
        (fun r => r.totalDistanceMeters) = some 0 ∧
      (0 : ℚ) ≠ -1 := by
  refine ⟨by norm_num [specMaxSeenDist], ?_, by norm_num⟩
  norm_num [parseTcxFileContent, passRun, passGo, passStep, sampleRate, initState,
    mkBestEfforts, effortFor, bestEffortRun, beGo, shrinkGo, updateBest, effortLabel,
    jsRound, altVal, Except.toOption]

theorem altContrib_nonneg (a b : ℚ) : 0 ≤ altContrib a b := by
  unfold altContrib
  split
  · linarith [show (0.2 : ℚ) < b - a by tauto]
  · exact le_refl 0

theorem chainGain_nonneg (t : List ℚ) : ∀ a : ℚ, 0 ≤ chainGain a t := by
  induction t with
  | nil => intro a; exact le_refl 0
  | cons b t ih =>
      intro a
      rw [chainGain]
      have := altContrib_nonneg a b
      have := ih b
      linarith

theorem chainGain_pairGain (t : List ℚ) : ∀ a : ℚ, chainGain a t = pairGain (a :: t) := by
  induction t with
  | nil => intro a; rfl
  | cons b t ih =>
      intro a
      rw [chainGain, ih b]
      rfl

theorem altContrib_sentinel (a : ℚ) : altContrib (-9999) a = 0 := by
  simp [altContrib]

theorem passRun_elevationGain (pts : List Trackpoint) :
    (passRun pts).elevationGain = chainGain (-9999) (altitudeProfile pts) := by
  unfold passRun
  have h := (passGo_elevation pts.length (sampleRate pts.length) pts 0 initState).1
  rw [h]
  show (0 : ℚ) + chainGain (-9999) (altitudeProfile pts) = _
  rw [zero_add]

theorem chainGain_sentinel_eq_pairGain (t : List ℚ) :
    chainGain (-9999) t = pairGain t := by
  cases t with
  | nil => rfl
  | cons a t =>
      rw [chainGain, altContrib_sentinel, zero_add, chainGain_pairGain]

theorem chainGain_zero_of_decreasing (t : List ℚ) :
    ∀ a : ℚ, List.Chain' (fun x y => y < x) (a :: t) → chainGain a t = 0 := by
  induction t with
  | nil => intro a _; rfl
  | cons b t ih =>
      intro a h
      rw [List.chain'_cons] at h
      rw [chainGain, ih b h.2]
      have hba : b < a := h.1
      rw [show altContrib a b = 0 by unfold altContrib; rw [if_neg]; intro hc; linarith [hc.2.1]]
      norm_num

/-- Claim C5: the output elevationGain equals the sum, over consecutive
pairs of the altitude profile, of the contribution function, which is zero
on every descent and on every ascent of at most 0.2 m and otherwise the
raw increase; the gain is therefore non-negative, and it is exactly 0 for
every strictly decreasing altitude profile. -/
theorem c5_elevation_gain (p : Trackpoint) (ps : List Trackpoint) (cal : Option ℤ) :
    (parseTcxFileContent ⟨p :: ps, cal⟩).toOption.map (fun r => r.elevationGain) =
        some (pairGain (altitudeProfile (p :: ps))) ∧
      0 ≤ pairGain (altitudeProfile (p :: ps)) ∧
      (∀ a b : ℚ, b ≤ a → altContrib a b = 0) ∧
      (∀ a b : ℚ, b - a ≤ 0.2 → altContrib a b = 0) ∧
      (∀ a b : ℚ, altContrib a b = 0 ∨ altContrib a b = b - a) ∧
      (List.Chain' (fun x y => y < x) (altitudeProfile (p :: ps)) →
        pairGain (altitudeProfile (p :: ps)) = 0) := by
  obtain ⟨r, hok, _, _, _, _, hele, _⟩ := parse_fields p ps cal
  refine ⟨?_, ?_, ?_, ?_, ?_, ?_⟩
  · rw [parse_map_eq _ hok, hele, passRun_elevationGain, chainGain_sentinel_eq_pairGain]
  · cases h : altitudeProfile (p :: ps) with
    | nil => exact le_refl 0
    | cons a t => rw [← chainGain_pairGain]; exact chainGain_nonneg t a
  · intro a b hba
    unfold altContrib
    rw [if_neg]
    intro hc
    linarith [hc.2.1]
  · intro a b hb
    unfold altContrib
    rw [if_neg]
    intro hc
    linarith [hc.2.2]
  · intro a b
    unfold altContrib
    split
    · exact Or.inr rfl
    · exact Or.inl rfl
  · intro hdec
    cases h : altitudeProfile (p :: ps) with
    | nil => rfl
    | cons a t =>
        rw [← chainGain_pairGain]
        exact chainGain_zero_of_decreasing t a (h ▸ hdec)

/-- Claim C7: the chart series consists exactly of the samples whose index
is a multiple of the stride `sampleRate n = max 1 (n / 150)` together with
the final sample, in index order, each rendered as its DataPoint. -/
theorem c7_series_sampling (p : Trackpoint) (ps : List Trackpoint) (cal : Option ℤ) :
    (parseTcxFileContent ⟨p :: ps, cal⟩).toOption.map (fun r => r.seriesSample) =
      some (((List.range (p :: ps).length).filter
          (fun i => decide (i % sampleRate (p :: ps).length = 0 ∨ i = (p :: ps).length - 1))).map
        (fun i => dataPointOf ((p :: ps).getD i default))) := by
  obtain ⟨r, hok, _, _, _, _, _, _, _, hser, _⟩ := parse_fields p ps cal
  rw [parse_map_eq _ hok, hser]
  unfold passRun
  rw [passGo_seriesSample]
  congr 1
  show [] ++ _ = _
  rw [List.nil_append]
  congr 1
  apply List.filter_congr
  intro a _
  rw [Nat.zero_add]

/-- Claim C2 counterexample: two samples jumping from 0 m to 2500 m close
only one split (the split check runs once per sample), while
floor(2500 / 1000) = 2. -/
theorem c2_counterexample :
    (parseTcxFileContent ⟨[⟨0, 0, 0, 0, none⟩, ⟨300000, 2500, 0, 0, none⟩], none⟩).toOption.map
        (fun r => (r.totalDistanceMeters, r.splits.length)) = some (2500, 1) ∧
      ⌊(2500 : ℚ) / 1000⌋ = 2 := by
  constructor
  · norm_num [parseTcxFileContent, passRun, passGo, passStep, sampleRate, initState,
      mkBestEfforts, effortFor, bestEffortRun, beGo, shrinkGo, updateBest, effortLabel,
      jsRound, altVal, Except.toOption]
  · norm_num

/-- Claim C2 (amended): provided the running maximum distance crosses at
most one kilometer boundary per sample (the floor of each successive
running maximum, in km, grows by at most 1), the number of splits equals
floor(D / 1000) for total recorded distance D, the kilometer fields are
1, 2, ..., k in order, and a recording shorter than 1000 m has no splits. -/
theorem c2_split_count (p : Trackpoint) (ps : List Trackpoint) (cal : Option ℤ)
    (hH : List.Chain' (fun a b => ⌊b / 1000⌋ ≤ ⌊a / 1000⌋ + 1) (runningMaxes 0 (p :: ps))) :
    (parseTcxFileContent ⟨p :: ps, cal⟩).toOption.map
        (fun r => (r.totalDistanceMeters, r.splits.length,
          r.splits.map (fun sp => sp.kilometer))) =
      some (distTotal (p :: ps), (⌊distTotal (p :: ps) / 1000⌋).toNat,
        List.range' 1 (⌊distTotal (p :: ps) / 1000⌋).toNat) ∧
      (distTotal (p :: ps) < 1000 →
        (parseTcxFileContent ⟨p :: ps, cal⟩).toOption.map (fun r => r.splits) = some []) := by
  obtain ⟨r, hok, htd, _, _, _, _, _, hsp, _, _⟩ := parse_fields p ps cal
  have hinv := passGo_splits_inv (p :: ps).length (sampleRate (p :: ps).length) (p :: ps)
    0 initState rfl rfl (le_refl 1)
  have hfl := passGo_splitIndex_floor (p :: ps).length (sampleRate (p :: ps).length) (p :: ps)
    0 initState (le_refl 0) (by norm_num [initState]) hH
  rcases hinv with ⟨hkil, hlen, hone⟩
  rcases hfl with ⟨hnn, hidx⟩
  have hD : (passGo (p :: ps).length (sampleRate (p :: ps).length) 0 initState
      (p :: ps)).totalDistance = distTotal (p :: ps) := passRun_totalDistance (p :: ps)
  rw [hD] at hidx hnn
  have hfnn : 0 ≤ ⌊distTotal (p :: ps) / 1000⌋ := Int.floor_nonneg.mpr (by positivity)
  have hlenG : (passGo (p :: ps).length (sampleRate (p :: ps).length) 0 initState
      (p :: ps)).splits.length = (⌊distTotal (p :: ps) / 1000⌋).toNat := by omega
  have hkilG : (passGo (p :: ps).length (sampleRate (p :: ps).length) 0 initState
      (p :: ps)).splits.map (fun sp => sp.kilometer) =
      List.range' 1 (⌊distTotal (p :: ps) / 1000⌋).toNat := by
    rw [hkil]
    congr 1
    omega
  have hlen' : (passRun (p :: ps)).splits.length = (⌊distTotal (p :: ps) / 1000⌋).toNat :=
    hlenG
  have hkil' : (passRun (p :: ps)).splits.map (fun sp => sp.kilometer) =
      List.range' 1 (⌊distTotal (p :: ps) / 1000⌋).toNat := hkilG
  constructor
  · rw [parse_map_eq _ hok, htd, hsp, passRun_totalDistance, hlen', hkil']
  · intro hlt
    rw [parse_map_eq _ hok, hsp]
    have hz : (⌊distTotal (p :: ps) / 1000⌋).toNat = 0 := by
      have h1 : ⌊distTotal (p :: ps) / 1000⌋ < 1 := by
        apply Int.floor_lt.mpr
        push_cast
        rw [div_lt_iff₀ (by norm_num : (0:ℚ) < 1000)]
        linarith
      omega
    rw [hz] at hlen'
    congr 1
    exact List.length_eq_zero.mp hlen'

/-- Witness for claim C2 at a two-sample recording of 1500 m. -/
theorem c2_witness :
    (parseTcxFileContent ⟨[⟨0, 0, 0, 0, none⟩, ⟨300000, 1500, 0, 0, none⟩], none⟩).toOption.map
        (fun r => (r.totalDistanceMeters, r.splits.length,
          r.splits.map (fun sp => sp.kilometer))) =
      some (distTotal [⟨0, 0, 0, 0, none⟩, ⟨300000, 1500, 0, 0, none⟩],
        (⌊distTotal [⟨0, 0, 0, 0, none⟩, ⟨300000, 1500, 0, 0, none⟩] / 1000⌋).toNat,
        List.range' 1
          (⌊distTotal [⟨0, 0, 0, 0, none⟩, ⟨300000, 1500, 0, 0, none⟩] / 1000⌋).toNat) :=
  (c2_split_count ⟨0, 0, 0, 0, none⟩ [⟨300000, 1500, 0, 0, none⟩] none (by
    norm_num [runningMaxes, List.scanl, List.chain'_cons])).1

/-! ## Helpers for the best-effort claim -/

theorem rawOf_getD (pts : List Trackpoint) :
    ∀ i, (rawOf pts).getD i default =
      ⟨(pts.getD i default).time, (pts.getD i default).dist⟩ := by
  induction pts with
  | nil => intro i; cases i <;> rfl
  | cons q pts ih =>
      intro i
      cases i with
      | zero => rfl
      | succ i =>
          show (rawOf pts).getD i default = _
          rw [List.getD_cons_succ]
          exact ih i

theorem rpTime_rawOf (pts : List Trackpoint) (i : ℕ) :
    rpTime (rawOf pts) i = (pts.getD i default).time := by
  rw [rpTime, rawOf_getD]

theorem rpDist_rawOf (pts : List Trackpoint) (i : ℕ) :
    rpDist (rawOf pts) i = (pts.getD i default).dist := by
  rw [rpDist, rawOf_getD]

theorem length_rawOf (pts : List Trackpoint) : (rawOf pts).length = pts.length := by
  simp [rawOf]

theorem mono_of_chain (pts : List Trackpoint) (f : Trackpoint → ℚ)
    (h : List.Chain' (· ≤ ·) (pts.map f)) :
    ∀ i j, i ≤ j → j < pts.length → f (pts.getD i default) ≤ f (pts.getD j default) := by
  intro i j hij hjlen
  rcases eq_or_lt_of_le hij with he | hlt
  · rw [he]
  · have hpw := List.chain'_iff_pairwise.mp h
    have hge := List.pairwise_iff_getElem.mp hpw i j
      (by simpa using lt_of_lt_of_le hlt (le_of_lt (by simpa using hjlen)))
      (by simpa using hjlen) hlt
    rw [List.getElem_map, List.getElem_map] at hge
    rw [List.getD_eq_getElem _ _ (lt_trans hlt hjlen), List.getD_eq_getElem _ _ hjlen]
    exact hge

theorem timeMono_of_chain (pts : List Trackpoint)
    (h : List.Chain' (· ≤ ·) (pts.map fun q => q.time)) : TimeMono (rawOf pts) := by
  intro i j hij hjlen
  rw [length_rawOf] at hjlen
  rw [rpTime_rawOf, rpTime_rawOf]
  exact mono_of_chain pts (fun q => q.time) h i j hij hjlen

theorem distMono_of_chain (pts : List Trackpoint)
    (h : List.Chain' (· ≤ ·) (pts.map fun q => q.dist)) : DistMono (rawOf pts) := by
  intro i j hij hjlen
  rw [length_rawOf] at hjlen
  rw [rpDist_rawOf, rpDist_rawOf]
  exact mono_of_chain pts (fun q => q.dist) h i j hij hjlen

theorem dist_mem_to_idx (pts : List Trackpoint) (x : ℚ)
    (hx : x ∈ pts.map fun q => q.dist) :
    ∃ i, i < pts.length ∧ rpDist (rawOf pts) i = x := by
  rw [List.mem_map] at hx
  obtain ⟨q, hq, he⟩ := hx
  rw [List.mem_iff_getElem] at hq
  obtain ⟨i, hi, hqi⟩ := hq
  exact ⟨i, hi, by rw [rpDist_rawOf, List.getD_eq_getElem _ _ hi, hqi, he]⟩

theorem distTotal_eq_last (p : Trackpoint) (ps : List Trackpoint) (h0 : p.dist = 0)
    (hD : DistMono (rawOf (p :: ps))) :
    distTotal (p :: ps) = rpDist (rawOf (p :: ps)) ((p :: ps).length - 1) := by
  have hn : 0 < (p :: ps).length := by simp
  have hlen : (rawOf (p :: ps)).length = (p :: ps).length := length_rawOf (p :: ps)
  have h00 : rpDist (rawOf (p :: ps)) 0 = 0 := by
    rw [rpDist_rawOf, List.getD_cons_zero, h0]
  have hlast0 : 0 ≤ rpDist (rawOf (p :: ps)) ((p :: ps).length - 1) := by
    rw [← h00]
    exact hD 0 ((p :: ps).length - 1) (by omega) (by omega)
  apply le_antisymm
  · rw [distTotal_eq_max]
    apply max_le hlast0
    apply foldl_max_le_of
    · rw [h0]; exact hlast0
    · intro x hx
      have hx' : x ∈ (p :: ps).map fun q => q.dist := by
        rw [List.map_cons]
        exact List.mem_cons_of_mem _ hx
      obtain ⟨i, hi, he⟩ := dist_mem_to_idx (p :: ps) x hx'
      rw [← he]
      exact hD i ((p :: ps).length - 1) (by omega) (by omega)
  · rw [distTotal_eq_max]
    have hmem : rpDist (rawOf (p :: ps)) ((p :: ps).length - 1) ∈
        (p :: ps).map fun q => q.dist := by
      rw [rpDist_rawOf, List.getD_eq_getElem _ _ (show (p :: ps).length - 1 < (p :: ps).length by omega)]
      rw [List.mem_map]
      exact ⟨(p :: ps)[(p :: ps).length - 1], List.getElem_mem _, rfl⟩
    rw [List.map_cons] at hmem
    rcases List.mem_cons.mp hmem with he | hm
    · rw [he, h0]
      exact le_max_left 0 _
    · exact le_trans (le_foldl_max _ p.dist _ hm) (le_max_right 0 _)

theorem specBestTime_isSome (p : Trackpoint) (ps : List Trackpoint) (t : ℚ)
    (ht : 0 < t) (h0 : p.dist = 0) (hD : DistMono (rawOf (p :: ps)))
    (htd : t ≤ distTotal (p :: ps)) :
    ∃ bt, specBestTime (rawOf (p :: ps)) t = some bt := by
  have hlen : (rawOf (p :: ps)).length = (p :: ps).length := length_rawOf (p :: ps)
  have hn : 0 < (p :: ps).length := by simp
  have h00 : rpDist (rawOf (p :: ps)) 0 = 0 := by
    rw [rpDist_rawOf, List.getD_cons_zero, h0]
  have hq : Qual (rawOf (p :: ps)) t 0 ((p :: ps).length - 1) := by
    refine ⟨by omega, by omega, ?_⟩
    rw [h00, sub_zero, ← distTotal_eq_last p ps h0 hD]
    exact htd
  have hmem : elapsedQ (rawOf (p :: ps)) 0 ((p :: ps).length - 1) ∈
      specWindowTimes (rawOf (p :: ps)) t :=
    (mem_specWindowTimes _ _ _).mpr ⟨0, (p :: ps).length - 1, hq, rfl⟩
  obtain ⟨v, hv, _⟩ := listMin_le _ _ hmem
  exact ⟨v, hv⟩

theorem effortFor_spec (raw : List RawPoint) (td t : ℚ) (ht : 0 < t)
    (hT : TimeMono raw) (hD : DistMono raw) :
    effortFor raw td t =
      some (if t ≤ td then
          ((specBestTime raw t).elim [] fun bt => [⟨effortLabel t, bt, bt / (t / 1000)⟩])
        else []) := by
  unfold effortFor
  by_cases h : t ≤ td
  · rw [if_pos h, if_pos h, bestEffortRun_min raw t ht hT hD]
    cases specBestTime raw t <;> rfl
  · rw [if_neg h, if_neg h]

theorem mkBestEfforts_eq (raw : List RawPoint) (td : ℚ) (a b c : List BestEffort)
    (ha : effortFor raw td 1000 = some a) (hb : effortFor raw td 5000 = some b)
    (hc : effortFor raw td 10000 = some c) :
    mkBestEfforts raw td = some (a ++ b ++ c) := by
  simp [mkBestEfforts, ha, hb, hc]

theorem effortComp_mem (raw : List RawPoint) (D t : ℚ) (e : BestEffort)
    (he : e ∈ (if t ≤ D then
        ((specBestTime raw t).elim [] fun bt => [⟨effortLabel t, bt, bt / (t / 1000)⟩])
      else ([] : List BestEffort))) :
    e.distanceLabel = effortLabel t ∧ specBestTime raw t = some e.timeSeconds ∧
      e.paceSeconds = e.timeSeconds / (t / 1000) ∧ t ≤ D := by
  by_cases h : t ≤ D
  · rw [if_pos h] at he
    cases hsb : specBestTime raw t with
    | none => rw [hsb] at he; exact absurd he (List.not_mem_nil e)
    | some bt =>
        rw [hsb] at he
        have he' : e ∈ [(⟨effortLabel t, bt, bt / (t / 1000)⟩ : BestEffort)] := he
        rw [List.mem_singleton] at he'
        subst he'
        exact ⟨rfl, rfl, rfl, h⟩
  · rw [if_neg h] at he
    exact absurd he (List.not_mem_nil e)

theorem effortComp_present (raw : List RawPoint) (D t bt : ℚ)
    (hbt : specBestTime raw t = some bt) (h : t ≤ D) :
    ∃ e ∈ (if t ≤ D then
        ((specBestTime raw t).elim [] fun bt => [⟨effortLabel t, bt, bt / (t / 1000)⟩])
      else ([] : List BestEffort)), e.distanceLabel = effortLabel t := by
  refine ⟨⟨effortLabel t, bt, bt / (t / 1000)⟩, ?_, rfl⟩
  rw [if_pos h, hbt]
  exact List.mem_singleton_self _

theorem effortLabel_1000 : effortLabel (1000 : ℚ) = "1k" := by norm_num [effortLabel]

theorem effortLabel_5000 : effortLabel (5000 : ℚ) = "5k" := by norm_num [effortLabel]

theorem effortLabel_10000 : effortLabel (10000 : ℚ) = "10k" := by norm_num [effortLabel]

/-- Claim C1 (amended): assuming non-decreasing timestamps and cumulative
distances across the samples and a first sample at cumulative distance 0,
for each target distance d of 1000, 5000 and 10000 m the output
bestEfforts list contains an entry labelled for d exactly when the total
recorded distance reaches d, and every such entry records as timeSeconds
the minimum elapsed time over all contiguous sample windows whose distance
span is at least d, with paceSeconds equal to timeSeconds / (d / 1000). -/
theorem c1_best_efforts (p : Trackpoint) (ps : List Trackpoint) (cal : Option ℤ)
    (hT : List.Chain' (· ≤ ·) ((p :: ps).map fun q => q.time))
    (hD : List.Chain' (· ≤ ·) ((p :: ps).map fun q => q.dist))
    (h0 : p.dist = 0) :
    ∀ t ∈ ([1000, 5000, 10000] : List ℚ),
      ((∃ r e, parseTcxFileContent ⟨p :: ps, cal⟩ = .ok r ∧ e ∈ r.bestEfforts ∧
          e.distanceLabel = effortLabel t) ↔ t ≤ distTotal (p :: ps)) ∧
      ∀ r, parseTcxFileContent ⟨p :: ps, cal⟩ = .ok r →
        ∀ e ∈ r.bestEfforts, e.distanceLabel = effortLabel t →
          specBestTime (rawOf (p :: ps)) t = some e.timeSeconds ∧
            e.paceSeconds = e.timeSeconds / (t / 1000) := by
  have hTm : TimeMono (rawOf (p :: ps)) := timeMono_of_chain _ hT
  have hDm : DistMono (rawOf (p :: ps)) := distMono_of_chain _ hD
  obtain ⟨r, hok, htd, _, _, _, _, _, _, _, hbes⟩ := parse_fields p ps cal
  rw [passRun_rawPoints, passRun_totalDistance] at hbes
  have h1 := effortFor_spec (rawOf (p :: ps)) (distTotal (p :: ps)) 1000 (by norm_num) hTm hDm
  have h5 := effortFor_spec (rawOf (p :: ps)) (distTotal (p :: ps)) 5000 (by norm_num) hTm hDm
  have h10 := effortFor_spec (rawOf (p :: ps)) (distTotal (p :: ps)) 10000 (by norm_num) hTm hDm
  have hcat := mkBestEfforts_eq _ _ _ _ _ h1 h5 h10
  have hbe := Option.some.inj (hcat.symm.trans hbes)
  -- hbe : compA ++ compB ++ compC = r.bestEfforts
  have hforce : ∀ t : ℚ, t ∈ ([1000, 5000, 10000] : List ℚ) →
      ∀ e ∈ r.bestEfforts, e.distanceLabel = effortLabel t →
        e.distanceLabel = effortLabel t ∧
          specBestTime (rawOf (p :: ps)) t = some e.timeSeconds ∧
          e.paceSeconds = e.timeSeconds / (t / 1000) ∧ t ≤ distTotal (p :: ps) := by
    intro t htm e he hlab
    have htm3 : t = 1000 ∨ t = 5000 ∨ t = 10000 := by simpa using htm
    rw [← hbe] at he
    rcases List.mem_append.mp he with he' | hc
    · rcases List.mem_append.mp he' with ha | hb
      · have h := effortComp_mem _ _ _ _ ha
        have ht1 : t = 1000 := by
          rcases htm3 with h1000 | h5000 | h10000
          · exact h1000
          · exfalso
            rw [hlab, h5000] at h
            rw [effortLabel_1000, effortLabel_5000] at h
            exact absurd h.1 (by decide)
          · exfalso
            rw [hlab, h10000] at h
            rw [effortLabel_1000, effortLabel_10000] at h
            exact absurd h.1 (by decide)
        subst ht1
        rw [← hlab] at h
        exact ⟨hlab, h.2.1, h.2.2.1, h.2.2.2⟩
      · have h := effortComp_mem _ _ _ _ hb
        have ht5 : t = 5000 := by
          rcases htm3 with h1000 | h5000 | h10000
          · exfalso
            rw [hlab, h1000] at h
            rw [effortLabel_5000, effortLabel_1000] at h
            exact absurd h.1 (by decide)
          · exact h5000
          · exfalso
            rw [hlab, h10000] at h
            rw [effortLabel_5000, effortLabel_10000] at h
            exact absurd h.1 (by decide)
        subst ht5
        rw [← hlab] at h
        exact ⟨hlab, h.2.1, h.2.2.1, h.2.2.2⟩
    · have h := effortComp_mem _ _ _ _ hc
      have ht10 : t = 10000 := by
        rcases htm3 with h1000 | h5000 | h10000
        · exfalso
          rw [hlab, h1000] at h
          rw [effortLabel_10000, effortLabel_1000] at h
          exact absurd h.1 (by decide)
        · exfalso
          rw [hlab, h5000] at h
          rw [effortLabel_10000, effortLabel_5000] at h
          exact absurd h.1 (by decide)
        · exact h10000
      subst ht10
      rw [← hlab] at h
      exact ⟨hlab, h.2.1, h.2.2.1, h.2.2.2⟩
  intro t htm
  constructor
  · constructor
    · rintro ⟨r', e, hok', he, hlab⟩
      have hrr : r' = r := Except.ok.inj (hok'.symm.trans hok)
      subst hrr
      exact (hforce t htm e he hlab).2.2.2
    · intro hle
      have htm3 : t = 1000 ∨ t = 5000 ∨ t = 10000 := by simpa using htm
      have ht0 : (0 : ℚ) < t := by
        rcases htm3 with h1 | h5 | h10
        · rw [h1]; norm_num
        · rw [h5]; norm_num
        · rw [h10]; norm_num
      obtain ⟨bt, hbt⟩ := specBestTime_isSome p ps t ht0 h0 hDm hle
      obtain ⟨e, hem, hlab⟩ :=
        effortComp_present (rawOf (p :: ps)) (distTotal (p :: ps)) t bt hbt hle
      refine ⟨r, e, hok, ?_, hlab⟩
      rw [← hbe]
      rcases htm3 with h1 | h5 | h10
      · subst h1
        exact List.mem_append.mpr (Or.inl (List.mem_append.mpr (Or.inl hem)))
      · subst h5
        exact List.mem_append.mpr (Or.inl (List.mem_append.mpr (Or.inr hem)))
      · subst h10
        exact List.mem_append.mpr (Or.inr hem)
  · intro r' hok' e he hlab
    have hrr : r' = r := Except.ok.inj (hok'.symm.trans hok)
    subst hrr
    have h := hforce t htm e he hlab
    exact ⟨h.2.1, h.2.2.1⟩

/-- Claim C1 counterexample: a two-sample recording whose cumulative
distance starts at 500 m and ends at 1200 m has total recorded distance
1200 m (at least the 1000 m target), yet its best-efforts list is empty,
because no contiguous window spans 1000 m. -/
theorem c1_counterexample :
    (parseTcxFileContent
        ⟨[⟨0, 500, 0, 0, none⟩, ⟨300000, 1200, 0, 0, none⟩], none⟩).toOption.map
        (fun r => (r.totalDistanceMeters, r.bestEfforts)) = some (1200, []) ∧
      (1000 : ℚ) ≤ 1200 := by
  constructor
  · norm_num [parseTcxFileContent, passRun, passGo, passStep, sampleRate, initState,
      mkBestEfforts, effortFor, bestEffortRun, beGo, shrinkGo, updateBest, effortLabel,
      jsRound, altVal, Except.toOption]
  · norm_num

/-- Witness for claim C1 at a concrete monotone two-sample recording. -/
theorem c1_witness :
    ((∃ r e,
        parseTcxFileContent ⟨[⟨0, 0, 0, 0, none⟩, ⟨300000, 1200, 0, 0, none⟩], none⟩ =
            .ok r ∧
          e ∈ r.bestEfforts ∧ e.distanceLabel = effortLabel 1000) ↔
      (1000 : ℚ) ≤ distTotal [⟨0, 0, 0, 0, none⟩, ⟨300000, 1200, 0, 0, none⟩]) ∧
    ∀ r,
      parseTcxFileContent ⟨[⟨0, 0, 0, 0, none⟩, ⟨300000, 1200, 0, 0, none⟩], none⟩ =
          .ok r →
        ∀ e ∈ r.bestEfforts, e.distanceLabel = effortLabel 1000 →
          specBestTime (rawOf [⟨0, 0, 0, 0, none⟩, ⟨300000, 1200, 0, 0, none⟩]) 1000 =
              some e.timeSeconds ∧
            e.paceSeconds = e.timeSeconds / (1000 / 1000) :=
  c1_best_efforts ⟨0, 0, 0, 0, none⟩ [⟨300000, 1200, 0, 0, none⟩] none
    (by norm_num [List.chain'_cons])
    (by norm_num [List.chain'_cons])
    rfl
    1000 (by norm_num)

/-- Witness for claim C3 at a concrete one-sample document. -/
theorem c3_witness :
    (parseTcxFileContent ⟨[⟨0, 0, 0, 0, none⟩], none⟩ = .error .noData ↔
        ([⟨0, 0, 0, 0, none⟩] : List Trackpoint) = []) ∧
      ((∃ r, parseTcxFileContent ⟨[⟨0, 0, 0, 0, none⟩], none⟩ = .ok r) ↔
        ([⟨0, 0, 0, 0, none⟩] : List Trackpoint) ≠ []) :=
  c3_no_data_error ⟨[⟨0, 0, 0, 0, none⟩], none⟩

/-- Witness for claim C4 at a concrete one-sample document. -/
theorem c4_witness :
    (∀ k, runningDistance [⟨0, 700, 0, 0, none⟩] k ≤
        runningDistance [⟨0, 700, 0, 0, none⟩] (k + 1)) ∧
      ∀ v, specMaxSeenDist [⟨0, 700, 0, 0, none⟩] = some v →
        (parseTcxFileContent ⟨[⟨0, 700, 0, 0, none⟩], none⟩).toOption.map
            (fun r => r.totalDistanceMeters) = some (max 0 v) :=
  c4_running_max ⟨0, 700, 0, 0, none⟩ [] none

/-- Witness for claim C5 at a concrete one-sample document. -/
theorem c5_witness :
    (parseTcxFileContent ⟨[⟨0, 0, 0, 0, some 100⟩], none⟩).toOption.map
        (fun r => r.elevationGain) =
        some (pairGain (altitudeProfile [⟨0, 0, 0, 0, some 100⟩])) ∧
      0 ≤ pairGain (altitudeProfile [⟨0, 0, 0, 0, some 100⟩]) ∧
      (∀ a b : ℚ, b ≤ a → altContrib a b = 0) ∧
      (∀ a b : ℚ, b - a ≤ 0.2 → altContrib a b = 0) ∧
      (∀ a b : ℚ, altContrib a b = 0 ∨ altContrib a b = b - a) ∧
      (List.Chain' (fun x y => y < x) (altitudeProfile [⟨0, 0, 0, 0, some 100⟩]) →
        pairGain (altitudeProfile [⟨0, 0, 0, 0, some 100⟩]) = 0) :=
  c5_elevation_gain ⟨0, 0, 0, 0, some 100⟩ [] none

/-- Witness for claim C6 at a concrete one-sample document. -/
theorem c6_witness :
    (parseTcxFileContent ⟨[⟨0, 0, 120, 0, none⟩], none⟩).toOption.map
        (fun r => r.trainingLoadScore) =
      (parseTcxFileContent ⟨[⟨0, 0, 120, 0, none⟩], none⟩).toOption.map (fun r =>
        jsRound ((r.totalDurationSeconds / 60) *
          ((r.avgHr : ℚ) / (((if r.maxHr = 0 then 190 else r.maxHr) : ℤ) : ℚ)) * 10)) :=
  c6_training_load_formula ⟨[⟨0, 0, 120, 0, none⟩], none⟩

/-- Witness for claim C7 at a concrete one-sample document. -/
theorem c7_witness :
    (parseTcxFileContent ⟨[⟨0, 0, 0, 5, none⟩], none⟩).toOption.map
        (fun r => r.seriesSample) =
      some (((List.range ([⟨0, 0, 0, 5, none⟩] : List Trackpoint).length).filter
          (fun i => decide (i % sampleRate ([⟨0, 0, 0, 5, none⟩] : List Trackpoint).length = 0 ∨
            i = ([⟨0, 0, 0, 5, none⟩] : List Trackpoint).length - 1))).map
        (fun i => dataPointOf (([⟨0, 0, 0, 5, none⟩] : List Trackpoint).getD i default))) :=
  c7_series_sampling ⟨0, 0, 0, 5, none⟩ [] none

/-- Witness for claim C10 at a concrete raw-point list and document. -/
theorem c10_witness :
    (∃ b, bestEffortRun [⟨0, 0⟩, ⟨10000, 1500⟩] 1000 = some b) ∧
      (∃ b, bestEffortRun [⟨0, 0⟩, ⟨10000, 1500⟩] 5000 = some b) ∧
      (∃ b, bestEffortRun [⟨0, 0⟩, ⟨10000, 1500⟩] 10000 = some b) ∧
      (parseTcxFileContent ⟨[⟨0, 0, 0, 0, none⟩], none⟩ = .error .noData ∨
        ∃ r, parseTcxFileContent ⟨[⟨0, 0, 0, 0, none⟩], none⟩ = .ok r) :=
  c10_window_in_bounds [⟨0, 0⟩, ⟨10000, 1500⟩] ⟨[⟨0, 0, 0, 0, none⟩], none⟩
